import Mathlib

/-!
Shallow embedding of the `tiled` Go package (tilemap query engine).

Sources embedded here: `tilemap.go`, `decoding.go`, `helpers.go`, plus the
Tmx data model (`Tmx`, `Layer`, `Tileset`, `Chunk`, flag constants).

Modelling conventions:
* Go `int32` / `int` / `int64` fields are modelled as `Int`; wrap-around is
  irrelevant for the properties proved here (arithmetic stays far below the
  machine bounds under each theorem's hypotheses, stated explicitly where the
  packed memo key depends on the 32-bit range).
* Go `uint32` cell values are modelled as `Nat`, reduced `% 2^32` at the one
  place Go truncates (`uint32(tileIndex)` in `decodeCSV`).
* Go `float32` frame bounds are modelled as `ℚ`; `math.Floor`/`math.Ceil` of
  an exact quotient become `Rat.floor`/`Rat.ceil`.
* Go maps (`map[TileKey]TileData`) are modelled as association lists with
  most-recent-insertion-wins lookup, which matches Go map lookup/overwrite.
* Go's base64/compression pipeline calls external libraries; it is abstracted
  as an explicit function parameter `dec64` of the decoding entry points.
* Fallible Go functions returning `(T, error)` are modelled with `Except` or
  with a result structure carrying the Go zero value plus an `Option Err`.
-/

namespace Tiled

/-! ## Flag constants (enums.go, tmx model) -/

/-- GID flag masks from decoding.go. -/
def FlipHorizontalFlag : Nat := 0x80000000
def FlipVerticalFlag : Nat := 0x40000000
def FlipDiagonalFlag : Nat := 0x20000000
def RotateHexFlag : Nat := 0x10000000
def GIDMask : Nat := 0x1FFFFFFF

/-- FlipFlag bit values (`FlipHorizontal FlipFlag = 1 << iota`, ...). -/
def FlipHorizontal : Nat := 1
def FlipVertical : Nat := 2
def FlipDiagonal : Nat := 4
def FlipHex : Nat := 8

/-- MapFlag bit values. -/
def MapFlagInfinite : Nat := 1

/-- LayerFlag bit values. -/
def LayerFlagLocked : Nat := 1
def LayerFlagVisible : Nat := 2

inductive Encoding where
  | csv
  | base64
deriving DecidableEq, Repr

inductive Compression where
  | nocomp
  | gzip
  | zlib
  | zstd
deriving DecidableEq, Repr

/-- Error values (errors.New values in tilemap.go plus the dynamic errors
produced by `GetTiles` and `decodeCSV`; `external` stands for errors coming
out of the base64/decompression pipeline). -/
inductive Err where
  | noTmxData
  | invalidTmxData
  | tilesetNotFound
  | tileNotFound
  | tilesetSource
  | invalidBounds
  | invalidCSV (token : String)
  | external (msg : String)
deriving DecidableEq, Repr

deriving instance DecidableEq for Except

/-! ## Tmx document model (read-only input of the query engine) -/

structure Tileset where
  FirstGID : Nat
  Source : String
deriving DecidableEq, Repr, Inhabited

structure Chunk where
  X : Int
  Y : Int
  Width : Int
  Height : Int
  Content : String
deriving DecidableEq, Repr, Inhabited

/-- `Data` element of a layer: one payload for finite layers, chunks for
infinite layers. -/
structure Data where
  Encoding : Encoding
  Compression : Compression
  Content : String
  Chunks : List Chunk
deriving DecidableEq, Repr

structure Layer where
  Width : Int
  Height : Int
  Flags : Nat
  LData : Data
  ID : Int
  Name : String
deriving DecidableEq, Repr

def Layer.IsVisible (l : Layer) : Bool :=
  l.Flags &&& LayerFlagVisible != 0

instance : Inhabited Layer :=
  ⟨{ Width := 0, Height := 0, Flags := 0,
     LData := { Encoding := .csv, Compression := .nocomp, Content := "", Chunks := [] },
     ID := 0, Name := "" }⟩

structure Tmx where
  Width : Int
  Height : Int
  TileHeight : Int
  TileWidth : Int
  Flags : Nat
  Tilesets : List Tileset
  Layers : List Layer
deriving DecidableEq, Repr

def Tmx.IsInfinite (t : Tmx) : Bool :=
  t.Flags &&& MapFlagInfinite != 0

/-! ## GID decoding (decoding.go) -/

/-- `DecodeGID`: split a packed cell value into (tileID, FlipFlag bits),
translated statement-for-statement from decoding.go lines 24-39. -/
def DecodeGID (gid : Nat) : Nat × Nat :=
  let tileID := gid &&& GIDMask
  let flags : Nat := 0
  let flags := if gid &&& FlipHorizontalFlag != 0 then flags ||| FlipHorizontal else flags
  let flags := if gid &&& FlipVerticalFlag != 0 then flags ||| FlipVertical else flags
  let flags :=
    if gid &&& FlipDiagonalFlag != 0 then
      let flags := flags ||| FlipDiagonal
      if flags &&& (FlipHorizontal ||| FlipVertical) != 0 then
        flags ^^^ (FlipHorizontal ||| FlipVertical)
      else flags
    else flags
  (tileID, flags)

/-! ## CSV decoding (decoding.go) -/

/-! Strings are processed as their character lists (`String.data`), over
which the splitting/trimming/parsing functions below are defined; this keeps
the embedding executable by the kernel. -/

/-- `strings.SplitSeq s ","` for a one-character separator: every separator
occurrence splits, empty fields included (`"" ↦ [""]`, `"a,,b" ↦
["a","","b"]`). -/
def goSplitOn (sep : Char) : List Char → List (List Char)
  | [] => [[]]
  | c :: rest =>
    let r := goSplitOn sep rest
    if c = sep then [] :: r
    else (c :: r.headD []) :: r.tail

/-- Go `unicode.IsSpace` restricted to the ASCII space characters (the
non-ASCII Unicode space code points never occur in tile payloads). -/
def isSpaceChar (c : Char) : Bool :=
  c = ' ' || c = '\t' || c = '\n' || c = (Char.ofNat 11) || c = (Char.ofNat 12) || c = '\r'

/-- Go `strings.TrimSpace`: drop leading and trailing whitespace. -/
def goTrim (cs : List Char) : List Char :=
  ((cs.dropWhile isSpaceChar).reverse.dropWhile isSpaceChar).reverse

/-- Go `strconv.Atoi`: optional sign, then base-10 digits only, and the
value must fit in a 64-bit `int`; anything else is an error (`none`). -/
def goAtoi (s : List Char) : Option Int :=
  match s with
  | [] => none
  | _ =>
    let signDigits : Int × List Char :=
      match s with
      | '-' :: rest => (-1, rest)
      | '+' :: rest => (1, rest)
      | _ => (1, s)
    let sign := signDigits.1
    let digits := signDigits.2
    if digits = [] then none
    else if digits.all Char.isDigit then
      let n : Nat := digits.foldl (fun acc c => acc * 10 + (c.toNat - 48)) 0
      let v : Int := sign * n
      if v < -(2 ^ 63) ∨ v > 2 ^ 63 - 1 then none else some v
    else none

/-- Go `uint32(i)` conversion of an `int`: two's-complement truncation,
i.e. the value modulo `2^32`. -/
def toUInt32 (i : Int) : Nat :=
  (i % 2 ^ 32).toNat

/-- `decodeCSV` (decoding.go lines 53-67): split on ",", trim, skip empty
tokens, `strconv.Atoi` each token, truncate to uint32; first bad token is a
hard failure. -/
def decodeCSV (content : String) : Except Err (List Nat) :=
  go (goSplitOn ',' content.data) []
where
  go : List (List Char) → List Nat → Except Err (List Nat)
    | [], data => .ok data
    | s :: rest, data =>
      let s := goTrim s
      if s = [] then go rest data
      else
        match goAtoi s with
        | none => .error (.invalidCSV (String.mk s))
        | some tileIndex => go rest (data ++ [toUInt32 tileIndex])

/-- The base64 pipeline (`decodeBase64` and the three decompressors) calls
external libraries (encoding/base64, compress/*, klauspost/zstd) that are not
part of this repository; it is abstracted as a pure function parameter. -/
def Base64Dec : Type := String → Compression → Except Err (List Nat)

/-- `DecodeContent` (decoding.go lines 41-51).  The Go function panics on an
encoding value outside {csv, base64}; such values are unrepresentable in the
`Encoding` inductive, so the panic branch has no counterpart here. -/
def DecodeContent (dec64 : Base64Dec) (content : String) (encoding : Encoding)
    (compression : Compression) : Except Err (List Nat) :=
  match encoding with
  | .csv => decodeCSV content
  | .base64 => dec64 content compression

/-! ## Tilemap data model (tilemap.go) -/

/-- `TileData`: one resolved tile instance. -/
structure TileData where
  X : Int
  Y : Int
  TileID : Nat
  TsIdx : Int
  FlipFlag : Nat
deriving DecidableEq, Repr, Inhabited

/-- `TileRegion`: rectangle in tile coordinates. -/
structure TileRegion where
  MinX : Int
  MinY : Int
  MaxX : Int
  MaxY : Int
deriving DecidableEq, Repr, Inhabited

def TileRegion.Equal (tr other : TileRegion) : Bool :=
  tr.MinX == other.MinX && tr.MinY == other.MinY &&
    tr.MaxX == other.MaxX && tr.MaxY == other.MaxY

def TileRegion.Width (tr : TileRegion) : Int := tr.MaxX - tr.MinX

def TileRegion.Height (tr : TileRegion) : Int := tr.MaxY - tr.MinY

/-- `CompatibleForCaching` (tilemap.go lines 48-52). -/
def TileRegion.CompatibleForCaching (tr other : TileRegion) : Bool :=
  let widthDiff := tr.Width - other.Width
  let heightDiff := tr.Height - other.Height
  widthDiff ≥ -1 && widthDiff ≤ 1 && heightDiff ≥ -1 && heightDiff ≤ 1

/-- `TileIterator` (tilemap.go lines 58-62). -/
structure TileIterator where
  tiles : List TileData
  positions : List Nat
  index : Nat
deriving DecidableEq, Repr

/-- Go slice expression `tiles[start:end]`, for the in-range indices produced
by the cache (`positions` is non-decreasing and bounded by `tiles.length`
there, so the Go bounds panic cannot fire). -/
def goSlice (tiles : List TileData) (start stop : Nat) : List TileData :=
  (tiles.drop start).take (stop - start)

/-- `TileIterator.Next` (tilemap.go lines 65-75); `none` models the `nil`
return.  The Go test `ti.index >= len(ti.positions)-1` over `int` is
equivalent to `index + 1 ≥ length`. -/
def TileIterator.next (ti : TileIterator) : Option (List TileData) × TileIterator :=
  if ti.index + 1 ≥ ti.positions.length then (none, ti)
  else
    let start := ti.positions.getD ti.index 0
    let stop := ti.positions.getD (ti.index + 1) 0
    (some (goSlice ti.tiles start stop), { ti with index := ti.index + 1 })

def TileIterator.hasNext (ti : TileIterator) : Bool :=
  ti.index + 1 < ti.positions.length

def TileIterator.reset (ti : TileIterator) : TileIterator :=
  { ti with index := 0 }

/-- Repeatedly calling `next` until it returns `nil`: the sequence of layer
slices the iterator yields.  `positions.length` is enough fuel because every
yield advances `index`. -/
def iterYieldsAux : Nat → TileIterator → List (List TileData)
  | 0, _ => []
  | fuel + 1, ti =>
    match ti.next with
    | (none, _) => []
    | (some s, ti') => s :: iterYieldsAux fuel ti'

def TileIterator.yields (ti : TileIterator) : List (List TileData) :=
  iterYieldsAux ti.positions.length ti

/-- `NewTileKey` (tilemap.go lines 94-96): for `int32` inputs,
`uint64(int64(x)<<32 | int64(uint32(y)))` equals
`(x mod 2^32) * 2^32 + (y mod 2^32)`. -/
def NewTileKey (x y : Int) : Nat :=
  (x % 2 ^ 32).toNat * 2 ^ 32 + (y % 2 ^ 32).toNat

/-- `TilemapLayer` (tilemap.go lines 99-104).  The Go `map[TileKey]TileData`
memo is an association list; `lookup` finds the most recent insertion, which
matches map overwrite semantics. -/
structure TilemapLayer where
  Content : List Nat
  Chunks : List (List Nat)
  Tiles : List (Nat × TileData)
deriving DecidableEq, Repr, Inhabited

/-- `Tilemap` (tilemap.go lines 107-118). -/
structure Tilemap where
  Tmx : Option Tmx
  cachedTileRegion : TileRegion
  cachedTileData : List TileData
  cachedPositions : List Nat
  minX : Int
  minY : Int
  maxX : Int
  maxY : Int
  decodedLayers : List TilemapLayer
deriving DecidableEq, Repr

/-- `NewTilemap` (tilemap.go lines 120-128); the pre-allocated capacities are
allocation hints with no value-level effect. -/
def NewTilemap : Tilemap :=
  { Tmx := none
    cachedTileRegion := { MinX := 0, MinY := 0, MaxX := 0, MaxY := 0 }
    cachedTileData := []
    cachedPositions := []
    minX := 0, minY := 0, maxX := 0, maxY := 0
    decodedLayers := [] }

/-! ## helpers.go -/

/-- Loop body of `TilesetByGID` (helpers.go lines 21-28): scan indices
`len-1, len-2, ..., 0`; the argument is the number of indices left to try. -/
def tilesetByGIDAux (tilesets : List Tileset) (gid : Nat) : Nat → Option Tileset × Nat × Int
  | 0 => (none, 0, -1)
  | i + 1 =>
    let ts := tilesets.getD i default
    if gid ≥ ts.FirstGID then (some ts, gid - ts.FirstGID, (i : Int))
    else tilesetByGIDAux tilesets gid i

/-- `TilesetByGID`: last tileset (highest index) whose FirstGID ≤ gid;
`(none, 0, -1)` when no tileset matches. -/
def TilesetByGID (tmx : Tmx) (gid : Nat) : Option Tileset × Nat × Int :=
  tilesetByGIDAux tmx.Tilesets gid tmx.Tilesets.length

/-! ## Tile resolution (tilemap.go lines 294-381) -/

/-- `getTile` (tilemap.go lines 361-381). -/
def getTile (tmx : Tmx) (x y : Int) (content : Nat) : Option TileData :=
  let (tileID, flags) := DecodeGID content
  if tileID = 0 then none
  else
    let r := TilesetByGID tmx tileID
    let tileID := r.2.1
    let tsIdx := r.2.2
    if tsIdx = -1 then none
    else
      some { TsIdx := tsIdx, X := x * tmx.TileWidth, Y := y * tmx.TileHeight,
             TileID := tileID, FlipFlag := flags }

/-- Chunk-scanning loop of `getChunkTileAt` (tilemap.go lines 335-356):
walks `layer.Chunks[i]` for `i = idx, idx+1, ...` (the decoded chunk list is
passed as the remaining suffix), reading the chunk geometry from
`tmx.Layers[layerIdx].Data.Chunks[i]`.  Note the exact control flow: a
coordinate outside the chunk continues; a local index outside the decoded
array or a zero cell returns not-found immediately; an unresolvable GID
falls through to the next chunk. -/
def chunkScan (tmx : Tmx) (lay : TilemapLayer) (x y : Int) (layerIdx : Nat) :
    List (List Nat) → Nat → Option TileData × TilemapLayer
  | [], _ => (none, lay)
  | c :: rest, i =>
    let chunk := ((tmx.Layers.getD layerIdx default).LData.Chunks).getD i default
    if x < chunk.X ∨ x ≥ chunk.X + chunk.Width ∨ y < chunk.Y ∨ y ≥ chunk.Y + chunk.Height then
      chunkScan tmx lay x y layerIdx rest (i + 1)
    else
      let localX := x - chunk.X
      let localY := y - chunk.Y
      let localIdx := localY * chunk.Width + localX
      if localIdx < 0 ∨ localIdx ≥ (c.length : Int) then (none, lay)
      else if c.getD localIdx.toNat 0 = 0 then (none, lay)
      else
        match getTile tmx x y (c.getD localIdx.toNat 0) with
        | some tile =>
          (some tile, { lay with Tiles := (NewTileKey x y, tile) :: lay.Tiles })
        | none => chunkScan tmx lay x y layerIdx rest (i + 1)

/-- `getChunkTileAt` (tilemap.go lines 327-359). -/
def getChunkTileAt (tmx : Tmx) (lay : TilemapLayer) (x y : Int) (layerIdx : Nat) :
    Option TileData × TilemapLayer :=
  let idx := NewTileKey x y
  match lay.Tiles.lookup idx with
  | some tile => (some tile, lay)
  | none => chunkScan tmx lay x y layerIdx lay.Chunks 0

/-- `getTileAt` (tilemap.go lines 294-325).  The second component is the
layer with its (possibly extended) memo map — Go mutates `layer.Tiles` in
place. -/
def getTileAt (tmx : Tmx) (lay : TilemapLayer) (x y : Int) (layerIdx : Nat) :
    Option TileData × TilemapLayer :=
  if tmx.IsInfinite then getChunkTileAt tmx lay x y layerIdx
  else if x < 0 ∨ x ≥ tmx.Width ∨ y < 0 ∨ y ≥ tmx.Height then (none, lay)
  else
    let idx := NewTileKey x y
    match lay.Tiles.lookup idx with
    | some tile => (some tile, lay)
    | none =>
      let i : Int := y * tmx.Width + x
      if i < 0 ∨ i ≥ (lay.Content.length : Int) then (none, lay)
      else if lay.Content.getD i.toNat 0 = 0 then (none, lay)
      else
        match getTile tmx x y (lay.Content.getD i.toNat 0) with
        | some tile =>
          (some tile, { lay with Tiles := (NewTileKey x y, tile) :: lay.Tiles })
        | none => (none, lay)

/-! ## Region calculation and bounds (tilemap.go lines 383-417) -/

/-- `calculateQueryRegion` (tilemap.go lines 410-417).  Frame bounds are
`float32` in Go; they are embedded as exact rationals, so `math.Floor` and
`math.Ceil` of the quotient become `Rat.floor`/`Rat.ceil` (exact for every
quotient the claims evaluate; the final `int32` conversion is the identity
for in-range results). -/
def ratDivInt (q : ℚ) (w : Int) : ℚ :=
  Rat.divInt q.num (q.den * w)

/-- `ratDivInt` is exact rational division (stated over `Rat.divInt` so the
kernel can evaluate witnesses). -/
theorem ratDivInt_eq_div (q : ℚ) (w : Int) : ratDivInt q w = q / (w : ℚ) := by
  unfold ratDivInt
  rw [Rat.divInt_eq_div]
  push_cast
  rw [div_mul_eq_div_div]
  rw [Rat.num_div_den]

def calculateQueryRegion (minX minY maxX maxY : ℚ) (tileWidth tileHeight : Int) :
    TileRegion :=
  { MinX := Rat.floor (ratDivInt minX tileWidth)
    MinY := Rat.floor (ratDivInt minY tileHeight)
    MaxX := Rat.ceil (ratDivInt maxX tileWidth)
    MaxY := Rat.ceil (ratDivInt maxY tileHeight) }

def minInt32 (a b : Int) : Int := if a < b then a else b

def maxInt32 (a b : Int) : Int := if a > b then a else b

/-- `calculateTileInfiniteBounds` (tilemap.go lines 390-408); the
`math.MaxInt32` / `math.MinInt32` sentinels are the literal int32 extremes. -/
def calculateTileInfiniteBounds (tmx : Tmx) : Int × Int × Int × Int :=
  let init : Int × Int × Int × Int := (2 ^ 31 - 1, 2 ^ 31 - 1, -(2 ^ 31), -(2 ^ 31))
  let r := tmx.Layers.foldl
    (fun acc l =>
      l.LData.Chunks.foldl
        (fun (acc : Int × Int × Int × Int) c =>
          (minInt32 acc.1 c.X, minInt32 acc.2.1 c.Y,
           maxInt32 acc.2.2.1 (c.X + c.Width), maxInt32 acc.2.2.2 (c.Y + c.Height)))
        acc)
    init
  (r.1 * tmx.TileWidth, r.2.1 * tmx.TileHeight, r.2.2.1 * tmx.TileWidth,
   r.2.2.2 * tmx.TileHeight)

/-- `calculateTileBounds` (tilemap.go lines 383-388). -/
def calculateTileBounds (tmx : Tmx) : Int × Int × Int × Int :=
  if tmx.IsInfinite then calculateTileInfiniteBounds tmx
  else (0, 0, tmx.Width * tmx.TileWidth, tmx.Height * tmx.TileHeight)

/-! ## Layer decoding (tilemap.go lines 255-292) -/

/-- `decodeTilemapChunks` (tilemap.go lines 280-292). -/
def decodeTilemapChunks (dec64 : Base64Dec) (layer : Layer) :
    Except Err (List (List Nat)) :=
  layer.LData.Chunks.mapM
    (fun c => DecodeContent dec64 c.Content layer.LData.Encoding layer.LData.Compression)

/-- `decodeTilemapLayers` (tilemap.go lines 255-278): each layer gets a fresh
empty memo map; the first decode error aborts the whole loop and no layer
list is produced. -/
def decodeTilemapLayers (dec64 : Base64Dec) (tmx : Tmx) :
    Except Err (List TilemapLayer) :=
  tmx.Layers.mapM
    (fun l =>
      if tmx.IsInfinite then
        (decodeTilemapChunks dec64 l).map
          (fun chunks => { Content := [], Chunks := chunks, Tiles := [] })
      else
        (DecodeContent dec64 l.LData.Content l.LData.Encoding l.LData.Compression).map
          (fun data => { Content := data, Chunks := [], Tiles := [] }))

/-! ## Cache update and queries (tilemap.go lines 138-253) -/

/-- The half-open integer interval `[lo, hi)` in increasing order (the Go
loop `for v := lo; v < hi; v++`). -/
def rangeInt (lo hi : Int) : List Int :=
  (List.range (hi - lo).toNat).map (fun (k : Nat) => lo + (k : Int))

/-- Inner `x` loop of `updateCache` for one row `y` (tilemap.go lines
234-238): appends each found tile, threading the layer's memo map. -/
def scanRow (tmx : Tmx) (layerIdx : Nat) (y : Int) :
    List Int → TilemapLayer → List TileData → List TileData × TilemapLayer
  | [], lay, data => (data, lay)
  | x :: xs, lay, data =>
    match getTileAt tmx lay x y layerIdx with
    | (some tile, lay') => scanRow tmx layerIdx y xs lay' (data ++ [tile])
    | (none, lay') => scanRow tmx layerIdx y xs lay' data

/-- Outer `y` loop of `updateCache` (tilemap.go lines 233-239). -/
def scanRegion (tmx : Tmx) (layerIdx : Nat) (region : TileRegion) :
    List Int → TilemapLayer → List TileData → List TileData × TilemapLayer
  | [], lay, data => (data, lay)
  | y :: ys, lay, data =>
    let r := scanRow tmx layerIdx y (rangeInt region.MinX region.MaxX) lay data
    scanRegion tmx layerIdx region ys r.2 r.1

/-- Per-layer loop of `updateCache` (tilemap.go lines 226-242): record the
current buffer length as the layer's start offset, skip invisible layers,
scan the region otherwise; the final offset (total length) is appended after
the loop.  Returns (tile buffer, offsets, updated decoded layers). -/
def updateLayersAux (tmx : Tmx) (region : TileRegion) :
    List TilemapLayer → Nat → List TileData →
      List TileData × List Nat × List TilemapLayer
  | [], _, data => (data, [data.length], [])
  | lay :: rest, i, data =>
    let posHere := data.length
    let r :=
      if (tmx.Layers.getD i default).IsVisible then
        scanRegion tmx i region (rangeInt region.MinY region.MaxY) lay data
      else (data, lay)
    let rec' := updateLayersAux tmx region rest (i + 1) r.1
    (rec'.1, posHere :: rec'.2.1, r.2 :: rec'.2.2)

/-- `updateCache` (tilemap.go lines 220-243).  `tm.Tmx` is `some` whenever
the source calls this (GetTiles guards it); the `none` branch is dead. -/
def updateCache (tm : Tilemap) (region : TileRegion) : Tilemap :=
  match tm.Tmx with
  | none => tm
  | some tmx =>
    let r := updateLayersAux tmx region tm.decodedLayers 0 []
    { tm with
      cachedTileRegion := region
      cachedTileData := r.1
      cachedPositions := r.2.1
      decodedLayers := r.2.2 }

/-- `buildIterator` (tilemap.go lines 245-253): the iterator gets copies of
the cache buffers (value-level, copying is the identity; the aliasing aspect
is modelled separately in the `Alias` namespace). -/
def buildIterator (tm : Tilemap) : TileIterator :=
  { tiles := tm.cachedTileData, positions := tm.cachedPositions, index := 0 }

/-- `FlushCache` (tilemap.go lines 161-165). -/
def FlushCache (tm : Tilemap) : Tilemap :=
  { tm with
    cachedTileRegion := { MinX := 0, MinY := 0, MaxX := 0, MaxY := 0 }
    cachedTileData := []
    cachedPositions := [] }

/-- `SetTmx` (tilemap.go lines 138-159), Go-style: the returned state is the
receiver after the call (the cache flush happens before decoding, so it
persists even when decoding fails). -/
def SetTmx (dec64 : Base64Dec) (tm : Tilemap) (tmx : Option Tmx) :
    Option Err × Tilemap :=
  match tmx with
  | none => (some .invalidTmxData, tm)
  | some t =>
    if t.Layers.length = 0 then (some .invalidTmxData, tm)
    else
      let tm := FlushCache tm
      match decodeTilemapLayers dec64 t with
      | .error e => (some e, tm)
      | .ok layers =>
        let b := calculateTileBounds t
        (none,
         { tm with
           Tmx := some t
           minX := b.1, minY := b.2.1, maxX := b.2.2.1, maxY := b.2.2.2
           decodedLayers := layers })

/-- Result of `GetTiles`: Go returns `(TileIterator, error)` and mutates the
receiver; all three are captured here. -/
structure GetTilesRes where
  it : TileIterator
  err : Option Err
  tm : Tilemap
deriving DecidableEq, Repr

def emptyIterator : TileIterator := { tiles := [], positions := [], index := 0 }

/-- `GetTiles` (tilemap.go lines 192-218).  The capacity pre-allocation of
the full-rebuild branch (lines 211-214) manages buffer capacity only and has
no effect on the buffer values modelled here (it is modelled in the `Alias`
namespace); both non-exact branches recompute via `updateCache`. -/
def GetTiles (tm : Tilemap) (minX minY maxX maxY : ℚ) : GetTilesRes :=
  match tm.Tmx with
  | none => ⟨emptyIterator, some .noTmxData, tm⟩
  | some tmx =>
    if tm.decodedLayers.length = 0 then ⟨emptyIterator, some .noTmxData, tm⟩
    else if minX > maxX ∨ minY > maxY then ⟨emptyIterator, some .invalidBounds, tm⟩
    else
      let queryRegion :=
        calculateQueryRegion minX minY maxX maxY tmx.TileWidth tmx.TileHeight
      if queryRegion.Equal tm.cachedTileRegion then ⟨buildIterator tm, none, tm⟩
      else if queryRegion.CompatibleForCaching tm.cachedTileRegion then
        let tm' := updateCache tm queryRegion
        ⟨buildIterator tm', none, tm'⟩
      else
        let tm' := updateCache tm queryRegion
        ⟨buildIterator tm', none, tm'⟩

/-! ## Pure (memo-free) tile lookup

`getTileAt` consults and extends the per-layer memo map `Tiles`; its
functional content is the memo-free lookup below.  The development proves
that the memo is *coherent* (every entry equals the memo-free result at its
key) and stays so, which is what makes the query cache return the same
values as a fresh computation. -/

/-- Memo-free tile lookup: `getTileAt` run with an empty memo map. -/
def pureTileAt (tmx : Tmx) (lay : TilemapLayer) (layerIdx : Nat) (x y : Int) :
    Option TileData :=
  (getTileAt tmx { lay with Tiles := [] } x y layerIdx).1

/-- Coordinates whose packed `NewTileKey` is collision-free: the `int32`
range of the Go source. -/
def InKeyRange (x y : Int) : Prop :=
  -(2 ^ 31) ≤ x ∧ x < 2 ^ 31 ∧ -(2 ^ 31) ≤ y ∧ y < 2 ^ 31

/-- Hypothesis under which a single lookup's memo interaction is
collision-free: for infinite maps the queried coordinate must be in the
int32 range; for finite maps it is enough that the map dimensions are (as
`int32` values necessarily are) at most `2^31`, because the memo is touched
only after the bounds check. -/
def KeyOK (tmx : Tmx) (x y : Int) : Prop :=
  if tmx.IsInfinite then InKeyRange x y
  else tmx.Width ≤ 2 ^ 31 ∧ tmx.Height ≤ 2 ^ 31

/-- The packed 64-bit key is injective on int32 coordinates. -/
theorem NewTileKey_inj {x y x' y' : Int} (h1 : InKeyRange x y)
    (h2 : InKeyRange x' y') (h : NewTileKey x y = NewTileKey x' y') :
    x = x' ∧ y = y' := by
  obtain ⟨hx1, hx2, hy1, hy2⟩ := h1
  obtain ⟨hx1', hx2', hy1', hy2'⟩ := h2
  unfold NewTileKey at h
  omega

theorem lookup_nil_eq_none (k : Nat) :
    ([] : List (Nat × TileData)).lookup k = none := rfl

/-- `chunkScan`'s value component does not depend on the layer argument (the
layer is only threaded through for the memo store). -/
theorem chunkScan_val_indep (tmx : Tmx) (lay lay' : TilemapLayer) (x y : Int)
    (layerIdx : Nat) (cs : List (List Nat)) (i : Nat) :
    (chunkScan tmx lay x y layerIdx cs i).1 =
      (chunkScan tmx lay' x y layerIdx cs i).1 := by
  induction cs generalizing i with
  | nil => rfl
  | cons c rest ih =>
    unfold chunkScan
    dsimp only
    split
    · exact ih (i + 1)
    · split
      · rfl
      · split
        · rfl
        · split
          · rfl
          · exact ih (i + 1)

/-- `chunkScan` leaves `Content` and `Chunks` unchanged, and on a not-found
result leaves the layer unchanged; on a found result it prepends exactly the
found tile under the queried key. -/
theorem chunkScan_state (tmx : Tmx) (lay : TilemapLayer) (x y : Int)
    (layerIdx : Nat) (cs : List (List Nat)) (i : Nat) :
    (chunkScan tmx lay x y layerIdx cs i).2 = lay ∨
      ∃ t, (chunkScan tmx lay x y layerIdx cs i).1 = some t ∧
        (chunkScan tmx lay x y layerIdx cs i).2 =
          { lay with Tiles := (NewTileKey x y, t) :: lay.Tiles } := by
  induction cs generalizing i with
  | nil => left; rfl
  | cons c rest ih =>
    unfold chunkScan
    dsimp only
    split
    · exact ih (i + 1)
    · split
      · left; rfl
      · split
        · left; rfl
        · split
          · right; exact ⟨_, rfl, rfl⟩
          · exact ih (i + 1)

/-- A found `chunkScan` result is the memo-free scan value. -/
theorem chunkScan_found (tmx : Tmx) (lay : TilemapLayer) (x y : Int)
    (layerIdx : Nat) (cs : List (List Nat)) (i : Nat) {t : TileData}
    (h : (chunkScan tmx lay x y layerIdx cs i).1 = some t) :
    (chunkScan tmx { lay with Tiles := [] } x y layerIdx cs i).1 = some t := by
  rw [← chunkScan_val_indep tmx lay { lay with Tiles := [] } x y layerIdx cs i]
  exact h

/-- The memo-free lookup depends on the layer only through its `Content` and
`Chunks`. -/
theorem pureTileAt_congr (tmx : Tmx) (lay lay' : TilemapLayer) (layerIdx : Nat)
    (hc : lay.Content = lay'.Content) (hk : lay.Chunks = lay'.Chunks) :
    pureTileAt tmx lay layerIdx = pureTileAt tmx lay' layerIdx := by
  unfold pureTileAt
  have : ({ lay with Tiles := [] } : TilemapLayer) = { lay' with Tiles := [] } := by
    cases lay; cases lay'
    simp_all
  rw [this]

/-- Memo coherence: every entry of the layer's memo map at an int32 key is
exactly the memo-free lookup result for that coordinate. -/
def Coh (tmx : Tmx) (layerIdx : Nat) (lay : TilemapLayer) : Prop :=
  ∀ x y t, InKeyRange x y → lay.Tiles.lookup (NewTileKey x y) = some t →
    pureTileAt tmx lay layerIdx x y = some t

theorem coh_of_empty (tmx : Tmx) (layerIdx : Nat) (lay : TilemapLayer)
    (h : lay.Tiles = []) : Coh tmx layerIdx lay := by
  intro x y t _ hl
  rw [h] at hl
  simp [List.lookup] at hl

/-- Master lemma about one `getTileAt` call on a coherent layer: the value
is the memo-free result, and the layer is unchanged except for possibly
memoizing exactly that result under the queried (collision-free) key. -/
theorem getTileAt_spec (tmx : Tmx) (lay : TilemapLayer) (x y : Int) (li : Nat)
    (hc : Coh tmx li lay) (hk : KeyOK tmx x y) :
    (getTileAt tmx lay x y li).1 = pureTileAt tmx lay li x y ∧
      ((getTileAt tmx lay x y li).2 = lay ∨
        (InKeyRange x y ∧ ∃ t, (getTileAt tmx lay x y li).1 = some t ∧
          (getTileAt tmx lay x y li).2 =
            { lay with Tiles := (NewTileKey x y, t) :: lay.Tiles })) := by
  by_cases hinf : tmx.IsInfinite = true
  · -- infinite map: getChunkTileAt
    have hkr : InKeyRange x y := by
      unfold KeyOK at hk
      rw [hinf] at hk
      simpa using hk
    unfold getTileAt pureTileAt getTileAt getChunkTileAt
    simp only [hinf, if_true]
    cases hl : lay.Tiles.lookup (NewTileKey x y) with
    | some t =>
      have hpure : pureTileAt tmx lay li x y = some t := hc x y t hkr hl
      unfold pureTileAt getTileAt getChunkTileAt at hpure
      simp only [hinf, if_true] at hpure
      simp only [hl]
      refine ⟨hpure.symm, Or.inl (by trivial)⟩
    | none =>
      simp only [hl, lookup_nil_eq_none]
      constructor
      · exact chunkScan_val_indep tmx lay { lay with Tiles := [] } x y li lay.Chunks 0
      · rcases chunkScan_state tmx lay x y li lay.Chunks 0 with h | ⟨t, ht, h⟩
        · exact Or.inl h
        · exact Or.inr ⟨hkr, t, ht, h⟩
  · -- finite map
    have hinf' : tmx.IsInfinite = false := by
      cases hb : tmx.IsInfinite
      · rfl
      · exact absurd hb hinf
    have hdims : tmx.Width ≤ 2 ^ 31 ∧ tmx.Height ≤ 2 ^ 31 := by
      unfold KeyOK at hk
      rw [hinf'] at hk
      simpa using hk
    unfold getTileAt pureTileAt getTileAt
    simp only [hinf', Bool.false_eq_true, if_false]
    by_cases hb : x < 0 ∨ x ≥ tmx.Width ∨ y < 0 ∨ y ≥ tmx.Height
    · simp only [hb, if_true]
      exact ⟨by trivial, Or.inl (by trivial)⟩
    · simp only [hb, if_false]
      have hkr : InKeyRange x y := by
        unfold InKeyRange
        push_neg at hb
        obtain ⟨b1, b2, b3, b4⟩ := hb
        refine ⟨by omega, by omega, by omega, by omega⟩
      cases hl : lay.Tiles.lookup (NewTileKey x y) with
      | some t =>
        have hpure : pureTileAt tmx lay li x y = some t := hc x y t hkr hl
        unfold pureTileAt getTileAt at hpure
        simp only [hinf', Bool.false_eq_true, if_false, hb] at hpure
        simp only [hl]
        exact ⟨hpure.symm, Or.inl (by trivial)⟩
      | none =>
        simp only [hl, lookup_nil_eq_none]
        split
        · exact ⟨by trivial, Or.inl (by trivial)⟩
        · split
          · exact ⟨by trivial, Or.inl (by trivial)⟩
          · split
            · exact ⟨by trivial, Or.inr ⟨hkr, _, by trivial, by trivial⟩⟩
            · exact ⟨by trivial, Or.inl (by trivial)⟩

/-- The `getTileAt` value on a coherent layer equals the memo-free value. -/
theorem getTileAt_fst (tmx : Tmx) (lay : TilemapLayer) (x y : Int) (li : Nat)
    (hc : Coh tmx li lay) (hk : KeyOK tmx x y) :
    (getTileAt tmx lay x y li).1 = pureTileAt tmx lay li x y :=
  (getTileAt_spec tmx lay x y li hc hk).1

/-- `getTileAt` preserves `Content` and `Chunks`. -/
theorem getTileAt_content (tmx : Tmx) (lay : TilemapLayer) (x y : Int) (li : Nat)
    (hc : Coh tmx li lay) (hk : KeyOK tmx x y) :
    (getTileAt tmx lay x y li).2.Content = lay.Content ∧
      (getTileAt tmx lay x y li).2.Chunks = lay.Chunks := by
  rcases (getTileAt_spec tmx lay x y li hc hk).2 with h | ⟨_, t, _, h⟩ <;>
    rw [h] <;> exact ⟨rfl, rfl⟩

/-- `getTileAt` preserves memo coherence. -/
theorem getTileAt_coh (tmx : Tmx) (lay : TilemapLayer) (x y : Int) (li : Nat)
    (hc : Coh tmx li lay) (hk : KeyOK tmx x y) :
    Coh tmx li (getTileAt tmx lay x y li).2 := by
  obtain ⟨hval, hsnd | ⟨hkr, t, ht, hext⟩⟩ := getTileAt_spec tmx lay x y li hc hk
  · rw [hsnd]; exact hc
  · rw [hext]
    intro x' y' t' hkr' hlook
    have hpcongr :
        pureTileAt tmx { lay with Tiles := (NewTileKey x y, t) :: lay.Tiles } li =
          pureTileAt tmx lay li :=
      pureTileAt_congr tmx _ lay li rfl rfl
    rw [hpcongr]
    simp only [List.lookup] at hlook
    by_cases hkey : NewTileKey x' y' = NewTileKey x y
    · have hbeq : (NewTileKey x' y' == NewTileKey x y) = true := by
        exact beq_iff_eq.mpr hkey
      rw [hbeq] at hlook
      simp at hlook
      obtain ⟨hx, hy⟩ := NewTileKey_inj hkr' hkr hkey
      subst hx; subst hy
      rw [← hlook, ← ht, hval]
    · have hbeq : (NewTileKey x' y' == NewTileKey x y) = false := by
        exact beq_eq_false_iff_ne.mpr hkey
      rw [hbeq] at hlook
      simp at hlook
      exact hc x' y' t' hkr' hlook

/-! ## Memo-free description of one cache rebuild -/

/-- Memo-free tiles of one row. -/
def pureRowTiles (tmx : Tmx) (lay : TilemapLayer) (li : Nat) (y : Int)
    (xs : List Int) : List TileData :=
  xs.filterMap (fun x => pureTileAt tmx lay li x y)

/-- Memo-free tiles of the whole region scan for one layer (row-major, the
loop order of `updateCache`). -/
def pureRegionTiles (tmx : Tmx) (lay : TilemapLayer) (li : Nat)
    (region : TileRegion) : List TileData :=
  ((rangeInt region.MinY region.MaxY).map
    (fun y => pureRowTiles tmx lay li y (rangeInt region.MinX region.MaxX))).flatten

/-- Memo-free contribution of layer `li` to the cache: empty if the document
layer is invisible. -/
def pureLayerTiles (tmx : Tmx) (lay : TilemapLayer) (li : Nat)
    (region : TileRegion) : List TileData :=
  if (tmx.Layers.getD li default).IsVisible then pureRegionTiles tmx lay li region
  else []

/-- Memo-free per-layer slices for the layers starting at index `i`. -/
def pureLayersAux (tmx : Tmx) (region : TileRegion) :
    List TilemapLayer → Nat → List (List TileData)
  | [], _ => []
  | lay :: rest, i => pureLayerTiles tmx lay i region :: pureLayersAux tmx region rest (i + 1)

/-- The offset list `updateCache` builds: the running start offset of every
slice, then the total length. -/
def offsetsFrom (b : Nat) : List (List TileData) → List Nat
  | [] => [b]
  | l :: ls => b :: offsetsFrom (b + l.length) ls

theorem offsetsFrom_length (b : Nat) (ls : List (List TileData)) :
    (offsetsFrom b ls).length = ls.length + 1 := by
  induction ls generalizing b with
  | nil => rfl
  | cons l ls ih => simp [offsetsFrom, ih]

theorem mem_rangeInt {x lo hi : Int} : x ∈ rangeInt lo hi ↔ lo ≤ x ∧ x < hi := by
  unfold rangeInt
  constructor
  · intro hx
    obtain ⟨k, hk, hkx⟩ := List.mem_map.mp hx
    rw [List.mem_range] at hk
    omega
  · intro hx
    refine List.mem_map.mpr ⟨(x - lo).toNat, ?_, ?_⟩
    · rw [List.mem_range]
      omega
    · omega

theorem pureRowTiles_congr (tmx : Tmx) (lay lay' : TilemapLayer) (li : Nat)
    (y : Int) (xs : List Int) (h1 : lay.Content = lay'.Content)
    (h2 : lay.Chunks = lay'.Chunks) :
    pureRowTiles tmx lay li y xs = pureRowTiles tmx lay' li y xs := by
  unfold pureRowTiles
  rw [pureTileAt_congr tmx lay lay' li h1 h2]

theorem pureRegionTiles_congr (tmx : Tmx) (lay lay' : TilemapLayer) (li : Nat)
    (region : TileRegion) (h1 : lay.Content = lay'.Content)
    (h2 : lay.Chunks = lay'.Chunks) :
    pureRegionTiles tmx lay li region = pureRegionTiles tmx lay' li region := by
  unfold pureRegionTiles
  have hf : (fun y => pureRowTiles tmx lay li y (rangeInt region.MinX region.MaxX)) =
      (fun y => pureRowTiles tmx lay' li y (rangeInt region.MinX region.MaxX)) :=
    funext (fun y => pureRowTiles_congr tmx lay lay' li y _ h1 h2)
  rw [hf]

theorem pureLayerTiles_congr (tmx : Tmx) (lay lay' : TilemapLayer) (li : Nat)
    (region : TileRegion) (h1 : lay.Content = lay'.Content)
    (h2 : lay.Chunks = lay'.Chunks) :
    pureLayerTiles tmx lay li region = pureLayerTiles tmx lay' li region := by
  unfold pureLayerTiles
  rw [pureRegionTiles_congr tmx lay lay' li region h1 h2]

/-- Specification of the inner `x` loop. -/
theorem scanRow_spec (tmx : Tmx) (li : Nat) (y : Int) (xs : List Int) :
    ∀ lay data, Coh tmx li lay → (∀ x ∈ xs, KeyOK tmx x y) →
      (scanRow tmx li y xs lay data).1 = data ++ pureRowTiles tmx lay li y xs ∧
        Coh tmx li (scanRow tmx li y xs lay data).2 ∧
        (scanRow tmx li y xs lay data).2.Content = lay.Content ∧
        (scanRow tmx li y xs lay data).2.Chunks = lay.Chunks := by
  induction xs with
  | nil =>
    intro lay data hc _
    exact ⟨by simp [scanRow, pureRowTiles], hc, rfl, rfl⟩
  | cons x xs ih =>
    intro lay data hc hk
    have hk0 : KeyOK tmx x y := hk x (by simp)
    have hks : ∀ x' ∈ xs, KeyOK tmx x' y := fun x' h => hk x' (by simp [h])
    have hval := getTileAt_fst tmx lay x y li hc hk0
    have hcoh := getTileAt_coh tmx lay x y li hc hk0
    have hcont := getTileAt_content tmx lay x y li hc hk0
    unfold scanRow
    rcases hres : getTileAt tmx lay x y li with ⟨o, lay'⟩
    rw [hres] at hval hcoh hcont
    have hpr : pureRowTiles tmx lay' li y xs = pureRowTiles tmx lay li y xs :=
      pureRowTiles_congr tmx lay' lay li y xs hcont.1 hcont.2
    have hrow : pureRowTiles tmx lay li y (x :: xs) =
        (pureTileAt tmx lay li x y).toList ++ pureRowTiles tmx lay li y xs := by
      unfold pureRowTiles
      rw [List.filterMap_cons]
      cases pureTileAt tmx lay li x y <;> simp
    cases o with
    | some tile =>
      obtain ⟨ih1, ih2, ih3, ih4⟩ := ih lay' (data ++ [tile]) hcoh hks
      refine ⟨?_, ih2, hcont.1 ▸ ih3, hcont.2 ▸ ih4⟩
      rw [ih1, hpr, hrow, ← hval]
      simp
    | none =>
      obtain ⟨ih1, ih2, ih3, ih4⟩ := ih lay' data hcoh hks
      refine ⟨?_, ih2, hcont.1 ▸ ih3, hcont.2 ▸ ih4⟩
      rw [ih1, hpr, hrow, ← hval]
      simp

/-- Specification of the outer `y` loop. -/
theorem scanRegion_spec (tmx : Tmx) (li : Nat) (region : TileRegion)
    (ys : List Int) :
    ∀ lay data, Coh tmx li lay →
      (∀ y ∈ ys, ∀ x ∈ rangeInt region.MinX region.MaxX, KeyOK tmx x y) →
      (scanRegion tmx li region ys lay data).1 =
          data ++ (ys.map
            (fun y => pureRowTiles tmx lay li y (rangeInt region.MinX region.MaxX))).flatten ∧
        Coh tmx li (scanRegion tmx li region ys lay data).2 ∧
        (scanRegion tmx li region ys lay data).2.Content = lay.Content ∧
        (scanRegion tmx li region ys lay data).2.Chunks = lay.Chunks := by
  induction ys with
  | nil =>
    intro lay data hc _
    exact ⟨by simp [scanRegion], hc, rfl, rfl⟩
  | cons y ys ih =>
    intro lay data hc hk
    have hk0 : ∀ x ∈ rangeInt region.MinX region.MaxX, KeyOK tmx x y :=
      hk y (by simp)
    have hks : ∀ y' ∈ ys, ∀ x ∈ rangeInt region.MinX region.MaxX, KeyOK tmx x y' :=
      fun y' h => hk y' (by simp [h])
    obtain ⟨h1, h2, h3, h4⟩ :=
      scanRow_spec tmx li y (rangeInt region.MinX region.MaxX) lay data hc hk0
    unfold scanRegion
    obtain ⟨ih1, ih2, ih3, ih4⟩ :=
      ih (scanRow tmx li y (rangeInt region.MinX region.MaxX) lay data).2
        (scanRow tmx li y (rangeInt region.MinX region.MaxX) lay data).1 h2 hks
    refine ⟨?_, ih2, h3 ▸ ih3, h4 ▸ ih4⟩
    rw [ih1, h1]
    have hmap :
        (ys.map (fun y' => pureRowTiles tmx
            (scanRow tmx li y (rangeInt region.MinX region.MaxX) lay data).2 li y'
            (rangeInt region.MinX region.MaxX))) =
          (ys.map (fun y' => pureRowTiles tmx lay li y'
            (rangeInt region.MinX region.MaxX))) := by
      apply List.map_congr_left
      intro y' _
      exact pureRowTiles_congr tmx _ lay li y' _ h3 h4
    rw [hmap]
    simp

/-- Layers from index `i` on are all coherent. -/
def CohFrom (tmx : Tmx) (i : Nat) (lays : List TilemapLayer) : Prop :=
  ∀ j, j < lays.length → Coh tmx (i + j) (lays.getD j default)

theorem cohFrom_cons {tmx : Tmx} {i : Nat} {lay : TilemapLayer}
    {rest : List TilemapLayer} :
    CohFrom tmx i (lay :: rest) ↔ Coh tmx i lay ∧ CohFrom tmx (i + 1) rest := by
  constructor
  · intro h
    refine ⟨by simpa using h 0 (by simp), fun j hj => ?_⟩
    have := h (j + 1) (by simpa using hj)
    simpa [Nat.add_comm, Nat.add_assoc, Nat.add_left_comm] using this
  · rintro ⟨h0, hrest⟩ j hj
    cases j with
    | zero => simpa using h0
    | succ j =>
      have := hrest j (by simpa using hj)
      simpa [Nat.add_comm, Nat.add_assoc, Nat.add_left_comm] using this

/-- Pointwise equality of `Content`/`Chunks` between two decoded layer
lists (the memo maps may differ). -/
def SameShape (lays lays' : List TilemapLayer) : Prop :=
  lays.length = lays'.length ∧
    ∀ j, j < lays.length →
      (lays.getD j default).Content = (lays'.getD j default).Content ∧
        (lays.getD j default).Chunks = (lays'.getD j default).Chunks

theorem sameShape_refl (lays : List TilemapLayer) : SameShape lays lays :=
  ⟨rfl, fun _ _ => ⟨rfl, rfl⟩⟩

theorem sameShape_cons {lay lay' : TilemapLayer} {rest rest' : List TilemapLayer}
    (h1 : lay.Content = lay'.Content) (h2 : lay.Chunks = lay'.Chunks)
    (h : SameShape rest rest') : SameShape (lay :: rest) (lay' :: rest') := by
  refine ⟨by simpa using h.1, fun j hj => ?_⟩
  cases j with
  | zero => exact ⟨h1, h2⟩
  | succ j => exact h.2 j (by simpa using hj)

theorem pureLayersAux_congr (tmx : Tmx) (region : TileRegion) :
    ∀ lays lays' i, SameShape lays lays' →
      pureLayersAux tmx region lays i = pureLayersAux tmx region lays' i := by
  intro lays
  induction lays with
  | nil =>
    intro lays' i h
    cases lays' with
    | nil => rfl
    | cons a b => exact absurd h.1 (by simp)
  | cons lay rest ih =>
    intro lays' i h
    cases lays' with
    | nil => exact absurd h.1 (by simp)
    | cons lay' rest' =>
      have h0 := h.2 0 (by simp)
      simp only [List.getD_cons_zero] at h0
      have hrest : SameShape rest rest' := by
        refine ⟨by simpa using h.1, fun j hj => ?_⟩
        have := h.2 (j + 1) (by simpa using hj)
        simpa using this
      unfold pureLayersAux
      rw [ih rest' (i + 1) hrest,
        pureLayerTiles_congr tmx lay lay' i region h0.1 h0.2]

/-- Specification of the per-layer loop of `updateCache`. -/
theorem updateLayersAux_spec (tmx : Tmx) (region : TileRegion) :
    ∀ (lays : List TilemapLayer) (i : Nat) (data : List TileData),
      CohFrom tmx i lays →
      (∀ x y, region.MinX ≤ x → x < region.MaxX → region.MinY ≤ y →
        y < region.MaxY → KeyOK tmx x y) →
      (updateLayersAux tmx region lays i data).1 =
          data ++ (pureLayersAux tmx region lays i).flatten ∧
        (updateLayersAux tmx region lays i data).2.1 =
          offsetsFrom data.length (pureLayersAux tmx region lays i) ∧
        CohFrom tmx i (updateLayersAux tmx region lays i data).2.2 ∧
        SameShape lays (updateLayersAux tmx region lays i data).2.2 := by
  intro lays
  induction lays with
  | nil =>
    intro i data hc _
    refine ⟨by simp [updateLayersAux, pureLayersAux], ?_, ?_, sameShape_refl []⟩
    · simp [updateLayersAux, pureLayersAux, offsetsFrom]
    · intro j hj
      exact absurd hj (by simp [updateLayersAux])
  | cons lay rest ih =>
    intro i data hc hk
    obtain ⟨hc0, hcrest⟩ := cohFrom_cons.mp hc
    have hkregion : ∀ y ∈ rangeInt region.MinY region.MaxY,
        ∀ x ∈ rangeInt region.MinX region.MaxX, KeyOK tmx x y := by
      intro y hy x hx
      rw [mem_rangeInt] at hy hx
      exact hk x y hx.1 hx.2 hy.1 hy.2
    by_cases hvis : (tmx.Layers.getD i default).IsVisible = true
    · -- visible layer: scan the region
      obtain ⟨h1, h2, h3, h4⟩ :=
        scanRegion_spec tmx i region (rangeInt region.MinY region.MaxY) lay data
          hc0 hkregion
      set r := scanRegion tmx i region (rangeInt region.MinY region.MaxY) lay data
        with hr
      obtain ⟨ih1, ih2, ih3, ih4⟩ := ih (i + 1) r.1 hcrest hk
      have hlayer : pureLayerTiles tmx lay i region =
          ((rangeInt region.MinY region.MaxY).map
            (fun y => pureRowTiles tmx lay i y
              (rangeInt region.MinX region.MaxX))).flatten := by
        unfold pureLayerTiles pureRegionTiles
        rw [if_pos hvis]
      constructor
      · show (updateLayersAux tmx region (lay :: rest) i data).1 = _
        unfold updateLayersAux
        simp only [hvis, if_true, ← hr]
        rw [ih1, h1, pureLayersAux]
        rw [hlayer]
        simp
      constructor
      · show (updateLayersAux tmx region (lay :: rest) i data).2.1 = _
        unfold updateLayersAux
        simp only [hvis, if_true, ← hr]
        rw [ih2, pureLayersAux, offsetsFrom, h1, hlayer]
        simp
      constructor
      · show CohFrom tmx i (updateLayersAux tmx region (lay :: rest) i data).2.2
        unfold updateLayersAux
        simp only [hvis, if_true, ← hr]
        exact cohFrom_cons.mpr ⟨h2, ih3⟩
      · show SameShape (lay :: rest) (updateLayersAux tmx region (lay :: rest) i data).2.2
        unfold updateLayersAux
        simp only [hvis, if_true, ← hr]
        exact sameShape_cons h3.symm h4.symm ih4
    · -- invisible layer: contributes nothing, offset still recorded
      have hvis' : (tmx.Layers.getD i default).IsVisible = false := by
        cases hb : (tmx.Layers.getD i default).IsVisible
        · rfl
        · exact absurd hb hvis
      obtain ⟨ih1, ih2, ih3, ih4⟩ := ih (i + 1) data hcrest hk
      have hlayer : pureLayerTiles tmx lay i region = [] := by
        unfold pureLayerTiles
        rw [hvis']
        simp
      constructor
      · show (updateLayersAux tmx region (lay :: rest) i data).1 = _
        unfold updateLayersAux
        simp only [hvis', Bool.false_eq_true, if_false]
        rw [ih1, pureLayersAux, hlayer]
        simp
      constructor
      · show (updateLayersAux tmx region (lay :: rest) i data).2.1 = _
        unfold updateLayersAux
        simp only [hvis', Bool.false_eq_true, if_false]
        rw [ih2, pureLayersAux, offsetsFrom, hlayer]
        simp
      constructor
      · show CohFrom tmx i (updateLayersAux tmx region (lay :: rest) i data).2.2
        unfold updateLayersAux
        simp only [hvis', Bool.false_eq_true, if_false]
        exact cohFrom_cons.mpr ⟨hc0, ih3⟩
      · show SameShape (lay :: rest) (updateLayersAux tmx region (lay :: rest) i data).2.2
        unfold updateLayersAux
        simp only [hvis', Bool.false_eq_true, if_false]
        exact sameShape_cons rfl rfl ih4

/-- Length of the rebuilt decoded-layer list (no hypotheses needed). -/
theorem updateLayersAux_length (tmx : Tmx) (region : TileRegion) :
    ∀ (lays : List TilemapLayer) (i : Nat) (data : List TileData),
      (updateLayersAux tmx region lays i data).2.2.length = lays.length := by
  intro lays
  induction lays with
  | nil => intro i data; rfl
  | cons lay rest ih =>
    intro i data
    unfold updateLayersAux
    simp only [List.length_cons]
    rw [ih]

/-- Full value-level specification of `updateCache` on a coherent state. -/
theorem updateCache_spec (tm : Tilemap) (tmx : Tmx) (region : TileRegion)
    (htmx : tm.Tmx = some tmx) (hc : CohFrom tmx 0 tm.decodedLayers)
    (hk : ∀ x y, region.MinX ≤ x → x < region.MaxX → region.MinY ≤ y →
      y < region.MaxY → KeyOK tmx x y) :
    (updateCache tm region).Tmx = tm.Tmx ∧
      (updateCache tm region).cachedTileRegion = region ∧
      (updateCache tm region).cachedTileData =
        (pureLayersAux tmx region tm.decodedLayers 0).flatten ∧
      (updateCache tm region).cachedPositions =
        offsetsFrom 0 (pureLayersAux tmx region tm.decodedLayers 0) ∧
      CohFrom tmx 0 (updateCache tm region).decodedLayers ∧
      SameShape tm.decodedLayers (updateCache tm region).decodedLayers := by
  obtain ⟨h1, h2, h3, h4⟩ := updateLayersAux_spec tmx region tm.decodedLayers 0 [] hc hk
  unfold updateCache
  rw [htmx]
  refine ⟨rfl, rfl, ?_, ?_, h3, h4⟩
  · simpa using h1
  · simpa using h2

/-- `updateCache` always records the new region, keeps the document and
keeps the layer count (no coherence needed). -/
theorem updateCache_basic (tm : Tilemap) (region : TileRegion) :
    (updateCache tm region).Tmx = tm.Tmx ∧
      (tm.Tmx ≠ none → (updateCache tm region).cachedTileRegion = region) ∧
      (updateCache tm region).decodedLayers.length = tm.decodedLayers.length ∧
      (updateCache tm region).minX = tm.minX ∧
      (updateCache tm region).minY = tm.minY ∧
      (updateCache tm region).maxX = tm.maxX ∧
      (updateCache tm region).maxY = tm.maxY := by
  unfold updateCache
  cases htmx : tm.Tmx with
  | none => exact ⟨htmx, fun h => absurd rfl h, rfl, rfl, rfl, rfl, rfl⟩
  | some tmx =>
    refine ⟨rfl, fun _ => rfl, ?_, rfl, rfl, rfl, rfl⟩
    exact updateLayersAux_length tmx region tm.decodedLayers 0 []

/-! ## Iterator lemmas -/

theorem iterYieldsAux_shift (fuel : Nat) :
    ∀ (t : List TileData) (q : Nat) (ps : List Nat) (i : Nat),
      iterYieldsAux fuel { tiles := t, positions := q :: ps, index := i + 1 } =
        iterYieldsAux fuel { tiles := t, positions := ps, index := i } := by
  induction fuel with
  | zero => intro t q ps i; rfl
  | succ fuel ih =>
    intro t q ps i
    unfold iterYieldsAux TileIterator.next
    simp only [List.length_cons, List.getD_cons_succ]
    by_cases hend : i + 1 ≥ ps.length
    · rw [if_pos (by omega), if_pos (by omega)]
    · rw [if_neg (by omega), if_neg (by omega)]
      simp only []
      rw [ih]

theorem offsetsFrom_getD_zero (b : Nat) (ls : List (List TileData)) :
    (offsetsFrom b ls).getD 0 0 = b := by
  cases ls <;> rfl

/-- An iterator whose positions are the offsets of per-layer slices yields
exactly those slices. -/
theorem iterYields_offsetsFrom :
    ∀ (ls : List (List TileData)) (b : Nat) (t : List TileData) (fuel : Nat),
      t.drop b = ls.flatten → ls.length ≤ fuel →
      iterYieldsAux fuel { tiles := t, positions := offsetsFrom b ls, index := 0 } = ls := by
  intro ls
  induction ls with
  | nil =>
    intro b t fuel _ _
    cases fuel with
    | zero => rfl
    | succ fuel =>
      unfold iterYieldsAux TileIterator.next
      rw [if_pos (by simp [offsetsFrom])]
  | cons l ls ih =>
    intro b t fuel hdrop hfuel
    cases fuel with
    | zero => exact absurd hfuel (by simp)
    | succ fuel =>
      unfold iterYieldsAux TileIterator.next
      rw [if_neg (by simp [offsetsFrom, offsetsFrom_length])]
      simp only [offsetsFrom, List.getD_cons_zero, List.getD_cons_succ]
      rw [offsetsFrom_getD_zero]
      have hslice : goSlice t b (b + l.length) = l := by
        unfold goSlice
        rw [hdrop]
        have : b + l.length - b = l.length := by omega
        rw [this]
        rw [List.flatten_cons]
        exact List.take_left l ls.flatten
      rw [hslice]
      rw [iterYieldsAux_shift]
      congr 1
      apply ih (b + l.length) t fuel
      · rw [← List.drop_drop, hdrop, List.flatten_cons]
        exact List.drop_left l ls.flatten
      · have hlen := hfuel
        simp only [List.length_cons] at hlen
        omega

/-- The slices a `buildIterator` result yields after `updateCache`. -/
theorem buildIterator_yields (tm : Tilemap) (tmx : Tmx)
    (hdata : tm.cachedTileData = (pureLayersAux tmx tm.cachedTileRegion tm.decodedLayers 0).flatten)
    (hpos : tm.cachedPositions = offsetsFrom 0 (pureLayersAux tmx tm.cachedTileRegion tm.decodedLayers 0)) :
    (buildIterator tm).yields = pureLayersAux tmx tm.cachedTileRegion tm.decodedLayers 0 := by
  unfold buildIterator TileIterator.yields
  simp only [hdata, hpos]
  apply iterYields_offsetsFrom
  · simp
  · rw [offsetsFrom_length]
    omega

theorem pureLayersAux_length (tmx : Tmx) (region : TileRegion) :
    ∀ (lays : List TilemapLayer) (i : Nat),
      (pureLayersAux tmx region lays i).length = lays.length := by
  intro lays
  induction lays with
  | nil => intro i; rfl
  | cons lay rest ih =>
    intro i
    unfold pureLayersAux
    simp only [List.length_cons]
    rw [ih]

theorem pureLayersAux_getD (tmx : Tmx) (region : TileRegion) :
    ∀ (lays : List TilemapLayer) (i j : Nat), j < lays.length →
      (pureLayersAux tmx region lays i).getD j [] =
        pureLayerTiles tmx (lays.getD j default) (i + j) region := by
  intro lays
  induction lays with
  | nil =>
    intro i j hj
    exact absurd hj (by simp)
  | cons lay rest ih =>
    intro i j hj
    cases j with
    | zero => simp [pureLayersAux]
    | succ j =>
      have := ih (i + 1) j (by simpa using hj)
      unfold pureLayersAux
      simp only [List.getD_cons_succ]
      rw [this]
      congr 1
      omega

/-- The zero-area region produces only empty slices. -/
theorem pureLayersAux_zero_flatten (tmx : Tmx) (region : TileRegion)
    (hx : region.MinX = region.MaxX ∨ region.MinY = region.MaxY) :
    ∀ (lays : List TilemapLayer) (i : Nat),
      (pureLayersAux tmx region lays i).flatten = [] := by
  have hempty : ∀ lay li, pureRegionTiles tmx lay li region = [] := by
    intro lay li
    unfold pureRegionTiles
    rcases hx with hx | hx
    · have : rangeInt region.MinX region.MaxX = [] := by
        unfold rangeInt
        rw [hx]
        simp
      rw [this]
      have : ∀ y, pureRowTiles tmx lay li y ([] : List Int) = [] := fun _ => rfl
      simp [pureRowTiles]
    · have : rangeInt region.MinY region.MaxY = [] := by
        unfold rangeInt
        rw [hx]
        simp
      rw [this]
      simp
  intro lays
  induction lays with
  | nil => intro i; rfl
  | cons lay rest ih =>
    intro i
    unfold pureLayersAux
    rw [List.flatten_cons, ih]
    unfold pureLayerTiles
    split
    · rw [hempty]
      rfl
    · rfl

/-- Boolean region equality is propositional equality. -/
theorem TileRegion.equal_iff (a b : TileRegion) : a.Equal b = true ↔ a = b := by
  unfold TileRegion.Equal
  cases a; cases b
  simp
  constructor
  · rintro ⟨⟨⟨h1, h2⟩, h3⟩, h4⟩
    exact ⟨h1, h2, h3, h4⟩
  · rintro ⟨h1, h2, h3, h4⟩
    exact ⟨⟨⟨h1, h2⟩, h3⟩, h4⟩

/-! ## SetTmx and GetTiles characterizations -/

/-- `mapM` over `Except`: a successful run yields one output per input,
each satisfying what the step function guarantees. -/
theorem mapM_ok_shape {α β : Type} (f : α → Except Err β) (p : β → Prop)
    (hf : ∀ a b, f a = .ok b → p b) :
    ∀ (ls : List α) (out : List β), ls.mapM f = .ok out →
      out.length = ls.length ∧ ∀ b ∈ out, p b := by
  intro ls
  induction ls with
  | nil =>
    intro out h
    simp only [List.mapM_nil, pure, Except.pure, Except.ok.injEq] at h
    subst h
    exact ⟨rfl, by simp⟩
  | cons a l ih =>
    intro out h
    rw [List.mapM_cons] at h
    cases hfa : f a with
    | error e =>
      rw [hfa] at h
      exact absurd h (by simp [bind, Except.bind])
    | ok b =>
      rw [hfa] at h
      cases hrest : l.mapM f with
      | error e =>
        rw [hrest] at h
        exact absurd h (by simp [bind, Except.bind])
      | ok bs =>
        rw [hrest] at h
        simp only [bind, Except.bind, pure, Except.pure, Except.ok.injEq] at h
        subst h
        obtain ⟨ih1, ih2⟩ := ih bs hrest
        refine ⟨by simp [ih1], ?_⟩
        intro x hx
        rcases List.mem_cons.mp hx with rfl | hx
        · exact hf a x hfa
        · exact ih2 x hx

/-- Layers produced by `decodeTilemapLayers` start with fresh empty memo
maps, one per document layer. -/
theorem decodeTilemapLayers_shape (dec64 : Base64Dec) (tmx : Tmx)
    {layers : List TilemapLayer}
    (h : decodeTilemapLayers dec64 tmx = .ok layers) :
    layers.length = tmx.Layers.length ∧ ∀ lay ∈ layers, lay.Tiles = [] := by
  unfold decodeTilemapLayers at h
  apply mapM_ok_shape _ (fun la => la.Tiles = []) ?_ tmx.Layers layers h
  intro l la hla
  split at hla
  · cases hd : decodeTilemapChunks dec64 l with
    | error e => rw [hd] at hla; exact absurd hla (by simp [Except.map])
    | ok cs =>
      rw [hd] at hla
      simp only [Except.map, Except.ok.injEq] at hla
      rw [← hla]
  · cases hd : DecodeContent dec64 l.LData.Content l.LData.Encoding
        l.LData.Compression with
    | error e => rw [hd] at hla; exact absurd hla (by simp [Except.map])
    | ok cs =>
      rw [hd] at hla
      simp only [Except.map, Except.ok.injEq] at hla
      rw [← hla]

/-- Successful `SetTmx` on a fresh or stale map: the resulting state in
full. -/
theorem setTmx_ok (dec64 : Base64Dec) (tm : Tilemap) (tmx : Tmx)
    (h : (SetTmx dec64 tm (some tmx)).1 = none) :
    tmx.Layers.length ≠ 0 ∧
      ∃ layers, decodeTilemapLayers dec64 tmx = .ok layers ∧
        (SetTmx dec64 tm (some tmx)).2 =
          { Tmx := some tmx
            cachedTileRegion := { MinX := 0, MinY := 0, MaxX := 0, MaxY := 0 }
            cachedTileData := []
            cachedPositions := []
            minX := (calculateTileBounds tmx).1
            minY := (calculateTileBounds tmx).2.1
            maxX := (calculateTileBounds tmx).2.2.1
            maxY := (calculateTileBounds tmx).2.2.2
            decodedLayers := layers } := by
  unfold SetTmx at h ⊢
  dsimp only at h ⊢
  by_cases hlen : tmx.Layers.length = 0
  · rw [if_pos hlen] at h
    exact absurd h (by simp)
  · rw [if_neg hlen] at h ⊢
    refine ⟨hlen, ?_⟩
    cases hd : decodeTilemapLayers dec64 tmx with
    | error e =>
      rw [hd] at h
      exact absurd h (by simp)
    | ok layers =>
      exact ⟨layers, rfl, rfl⟩

/-- A successful `GetTiles` call presupposes a set document, decoded layers
and a well-ordered frame. -/
theorem getTiles_err_none (tm : Tilemap) (minX minY maxX maxY : ℚ)
    (h : (GetTiles tm minX minY maxX maxY).err = none) :
    tm.Tmx ≠ none ∧ tm.decodedLayers.length ≠ 0 ∧ ¬(minX > maxX ∨ minY > maxY) := by
  unfold GetTiles at h
  cases htmx : tm.Tmx with
  | none =>
    rw [htmx] at h
    dsimp only at h
    exact absurd h (by simp)
  | some tmx =>
    rw [htmx] at h
    dsimp only at h
    by_cases hlen : tm.decodedLayers.length = 0
    · rw [if_pos hlen] at h
      exact absurd h (by simp)
    · rw [if_neg hlen] at h
      by_cases hb : minX > maxX ∨ minY > maxY
      · rw [if_pos hb] at h
        exact absurd h (by simp)
      · exact ⟨by simp [htmx], hlen, hb⟩

/-- Case analysis of a non-erroring `GetTiles` call: exact hit or rebuild
(the capacity-compatible and full-rebuild paths produce the same values). -/
theorem getTiles_cases (tm : Tilemap) (tmx : Tmx) (minX minY maxX maxY : ℚ)
    (htmx : tm.Tmx = some tmx) (hlay : tm.decodedLayers.length ≠ 0)
    (hbounds : ¬(minX > maxX ∨ minY > maxY)) :
    (calculateQueryRegion minX minY maxX maxY tmx.TileWidth tmx.TileHeight =
          tm.cachedTileRegion ∧
        GetTiles tm minX minY maxX maxY =
          { it := buildIterator tm, err := none, tm := tm }) ∨
      (calculateQueryRegion minX minY maxX maxY tmx.TileWidth tmx.TileHeight ≠
          tm.cachedTileRegion ∧
        GetTiles tm minX minY maxX maxY =
          { it := buildIterator (updateCache tm
              (calculateQueryRegion minX minY maxX maxY tmx.TileWidth tmx.TileHeight))
            err := none
            tm := updateCache tm
              (calculateQueryRegion minX minY maxX maxY tmx.TileWidth tmx.TileHeight) }) := by
  unfold GetTiles
  rw [htmx]
  dsimp only
  rw [if_neg hlay, if_neg hbounds]
  set region :=
    calculateQueryRegion minX minY maxX maxY tmx.TileWidth tmx.TileHeight with hregion
  by_cases heq : region.Equal tm.cachedTileRegion = true
  · left
    refine ⟨(TileRegion.equal_iff region tm.cachedTileRegion).mp heq, ?_⟩
    rw [if_pos heq]
  · right
    have heq' : region.Equal tm.cachedTileRegion = false := by
      cases hb : region.Equal tm.cachedTileRegion
      · rfl
      · exact absurd hb heq
    refine ⟨fun hcontra =>
      heq ((TileRegion.equal_iff region tm.cachedTileRegion).mpr hcontra), ?_⟩
    rw [heq']
    simp only [Bool.false_eq_true, if_false]
    by_cases hcompat : region.CompatibleForCaching tm.cachedTileRegion = true
    · rw [if_pos hcompat]
    · rw [if_neg hcompat]

/-! ## The reachable-state invariant -/

/-- Finite map whose dimensions fit `int32` (automatic for real documents). -/
def TmFiniteOK (tmx : Tmx) : Prop :=
  tmx.IsInfinite = false ∧ tmx.Width ≤ 2 ^ 31 ∧ tmx.Height ≤ 2 ^ 31

theorem keyOK_of_finite {tmx : Tmx} (h : TmFiniteOK tmx) :
    ∀ x y : Int, KeyOK tmx x y := by
  intro x y
  unfold KeyOK
  rw [h.1]
  simpa using ⟨h.2.1, h.2.2⟩

/-- Key-collision safety of one query region (automatic in the Go source,
whose region bounds are `int32`). -/
def RegionKeyOK (tmx : Tmx) (region : TileRegion) : Prop :=
  ∀ x y : Int, region.MinX ≤ x → x < region.MaxX → region.MinY ≤ y →
    y < region.MaxY → KeyOK tmx x y

/-- Invariant of every reachable `Tilemap` state with document `tmx`: the
memo maps are coherent, and the cache is either still flushed or holds
exactly the memo-free recomputation of its region. -/
def TmInv (tmx : Tmx) (tm : Tilemap) : Prop :=
  tm.Tmx = some tmx ∧
    CohFrom tmx 0 tm.decodedLayers ∧
    ((tm.cachedTileData = [] ∧ tm.cachedPositions = []) ∨
      (tm.cachedTileData =
          (pureLayersAux tmx tm.cachedTileRegion tm.decodedLayers 0).flatten ∧
        tm.cachedPositions =
          offsetsFrom 0 (pureLayersAux tmx tm.cachedTileRegion tm.decodedLayers 0)))

/-- `SetTmx` establishes the invariant. -/
theorem tmInv_setTmx (dec64 : Base64Dec) (tm : Tilemap) (tmx : Tmx)
    (h : (SetTmx dec64 tm (some tmx)).1 = none) :
    TmInv tmx (SetTmx dec64 tm (some tmx)).2 := by
  obtain ⟨-, layers, hdec, hst⟩ := setTmx_ok dec64 tm tmx h
  obtain ⟨-, hmemo⟩ := decodeTilemapLayers_shape dec64 tmx hdec
  rw [hst]
  refine ⟨rfl, ?_, Or.inl ⟨rfl, rfl⟩⟩
  intro j hj
  apply coh_of_empty
  apply hmemo
  simp only at hj ⊢
  have : layers.getD j default = layers[j] := List.getD_eq_getElem layers default hj
  rw [this]
  exact List.getElem_mem hj

/-- `GetTiles` preserves the invariant whenever every coordinate of the
computed region is key-collision safe. -/
theorem tmInv_getTiles (tmx : Tmx) (tm : Tilemap) (minX minY maxX maxY : ℚ)
    (hinv : TmInv tmx tm)
    (hkey : RegionKeyOK tmx
      (calculateQueryRegion minX minY maxX maxY tmx.TileWidth tmx.TileHeight)) :
    TmInv tmx (GetTiles tm minX minY maxX maxY).tm := by
  obtain ⟨htmx, hcoh, hcache⟩ := hinv
  by_cases herr : (GetTiles tm minX minY maxX maxY).err = none
  · obtain ⟨-, hlay, hbounds⟩ := getTiles_err_none tm minX minY maxX maxY herr
    rcases getTiles_cases tm tmx minX minY maxX maxY htmx hlay hbounds with
      ⟨-, hres⟩ | ⟨-, hres⟩
    · rw [hres]
      exact ⟨htmx, hcoh, hcache⟩
    · rw [hres]
      obtain ⟨u1, u2, u3, u4, u5, u6⟩ := updateCache_spec tm tmx _ htmx hcoh hkey
      refine ⟨by rw [u1, htmx], u5, Or.inr ⟨?_, ?_⟩⟩
      · rw [u3, u2]
        congr 1
        exact pureLayersAux_congr tmx _ tm.decodedLayers _ 0 u6
      · rw [u4, u2]
        congr 1
        exact pureLayersAux_congr tmx _ tm.decodedLayers _ 0 u6
  · -- error: the state is untouched
    unfold GetTiles at herr ⊢
    rw [htmx] at herr ⊢
    dsimp only at herr ⊢
    by_cases hlen : tm.decodedLayers.length = 0
    · rw [if_pos hlen] at herr ⊢
      exact ⟨htmx, hcoh, hcache⟩
    · rw [if_neg hlen] at herr ⊢
      by_cases hb : minX > maxX ∨ minY > maxY
      · rw [if_pos hb] at herr ⊢
        exact ⟨htmx, hcoh, hcache⟩
      · rw [if_neg hb] at herr
        exfalso
        apply herr
        split
        · rfl
        · split <;> rfl

/-! ## Spec-side definitions used by individual claims -/

/-- The spec's reading of the delimited-text decoder: each trimmed,
non-empty token is parsed as an *unsigned* integer (digits only; anything
else, a sign included, is a hard failure). -/
def parseUnsigned (s : List Char) : Option Nat :=
  if s ≠ [] ∧ s.all Char.isDigit then
    some (s.foldl (fun acc c => acc * 10 + (c.toNat - 48)) 0)
  else none

def decodeCSVUnsigned (content : String) : Except Err (List Nat) :=
  (((goSplitOn ',' content.data).map goTrim).filter (fun s => s ≠ [])).mapM
    (fun s =>
      match parseUnsigned s with
      | none => Except.error (Err.invalidCSV (String.mk s))
      | some v => Except.ok v)

/-- What `decodeCSV` actually computes: split on ',', trim, drop empty
tokens, parse each as a *signed* base-10 integer in the 64-bit `int` range
(Go `strconv.Atoi`) and truncate it to `uint32` modulo `2^32`; the first
token that is not such an integer is a hard failure. -/
def decodeCSVAmended (content : String) : Except Err (List Nat) :=
  (((goSplitOn ',' content.data).map goTrim).filter (fun s => s ≠ [])).mapM
    (fun s =>
      match goAtoi s with
      | none => Except.error (Err.invalidCSV (String.mk s))
      | some v => Except.ok (toUInt32 v))

theorem decodeCSV_go_spec :
    ∀ (ts : List (List Char)) (data : List Nat),
      decodeCSV.go ts data =
        (((ts.map goTrim).filter (fun s => s ≠ [])).mapM
          (fun s =>
            match goAtoi s with
            | none => Except.error (Err.invalidCSV (String.mk s))
            | some v => Except.ok (toUInt32 v))).map (fun vs => data ++ vs) := by
  intro ts
  induction ts with
  | nil =>
    intro data
    unfold decodeCSV.go
    simp only [List.map_nil, List.filter_nil, List.mapM_nil]
    simp [Except.map, pure, Except.pure]
  | cons s ts ih =>
    intro data
    unfold decodeCSV.go
    by_cases hempty : goTrim s = []
    · rw [if_pos hempty, ih data]
      simp [hempty]
    · rw [if_neg hempty]
      have hfilter :
          ((s :: ts).map goTrim).filter (fun s => s ≠ []) =
            goTrim s :: ((ts.map goTrim).filter (fun s => s ≠ [])) := by
        simp [List.filter_cons, hempty]
      rw [hfilter]
      cases hat : goAtoi (goTrim s) with
      | none =>
        rw [List.mapM_cons]
        simp [hat, bind, Except.bind, Except.map]
      | some v =>
        rw [List.mapM_cons]
        simp only [hat]
        rw [ih (data ++ [toUInt32 v])]
        cases hrest : ((ts.map goTrim).filter (fun s => s ≠ [])).mapM
            (fun s =>
              match goAtoi s with
              | none => Except.error (Err.invalidCSV (String.mk s))
              | some v => Except.ok (toUInt32 v)) with
        | error e => simp [hrest, bind, Except.bind, Except.map]
        | ok vs => simp [hrest, bind, Except.bind, Except.map, pure, Except.pure]

/-! ## Shared concrete fixtures for witnesses and counterexamples -/

/-- Trivial stand-in for the external base64 pipeline (never invoked on the
CSV fixtures below). -/
def exDec64 : Base64Dec := fun _ _ => .ok []

def exTileset : Tileset := { FirstGID := 1, Source := "tiles.tsx" }

def exLayer : Layer :=
  { Width := 2, Height := 2, Flags := LayerFlagVisible,
    LData := { Encoding := .csv, Compression := .nocomp, Content := "1,0,0,2", Chunks := [] },
    ID := 1, Name := "ground" }

def exLayerHidden : Layer :=
  { Width := 2, Height := 2, Flags := 0,
    LData := { Encoding := .csv, Compression := .nocomp, Content := "1,1,1,1", Chunks := [] },
    ID := 2, Name := "hidden" }

def exLayerBad : Layer :=
  { Width := 2, Height := 2, Flags := LayerFlagVisible,
    LData := { Encoding := .csv, Compression := .nocomp, Content := "1,x", Chunks := [] },
    ID := 3, Name := "bad" }

/-- A small valid finite document: 2x2 map, 16x16 tiles, one visible layer. -/
def exTmx : Tmx :=
  { Width := 2, Height := 2, TileHeight := 16, TileWidth := 16, Flags := 0,
    Tilesets := [exTileset], Layers := [exLayer] }

/-- The same document with a second, invisible layer. -/
def exTmx2 : Tmx :=
  { exTmx with Layers := [exLayer, exLayerHidden] }

/-- A document whose layer payload fails to decode. -/
def exTmxBad : Tmx :=
  { exTmx with Layers := [exLayerBad] }

/-! ## The claims -/

/-- C8: the region calculator divides each frame bound by the tile size,
flooring the minimums and ceiling the maximums; for 16x16 tiles, frame
(0,0,256,256) maps to region (0,0,16,16) and frame (5,5,260,260) maps to
region (0,0,17,17). -/
theorem c8_region_calculator :
    (∀ (a b c d : ℚ) (w h : Int),
      calculateQueryRegion a b c d w h =
        { MinX := Rat.floor (a / (w : ℚ)), MinY := Rat.floor (b / (h : ℚ)),
          MaxX := Rat.ceil (c / (w : ℚ)), MaxY := Rat.ceil (d / (h : ℚ)) }) ∧
      calculateQueryRegion 0 0 256 256 16 16 =
        { MinX := 0, MinY := 0, MaxX := 16, MaxY := 16 } ∧
      calculateQueryRegion 5 5 260 260 16 16 =
        { MinX := 0, MinY := 0, MaxX := 17, MaxY := 17 } := by
  refine ⟨?_, by decide, by decide⟩
  intro a b c d w h
  unfold calculateQueryRegion
  rw [ratDivInt_eq_div, ratDivInt_eq_div, ratDivInt_eq_div, ratDivInt_eq_div]

/-- C6: DecodeGID(0x80000005) is tile 5 with only horizontal flip; with the
diagonal bit set, the horizontal and vertical flip bits are toggled together
(horizontal+diagonal becomes vertical+diagonal and symmetrically), the
diagonal flag stays set, and the tile id is always the low 29 bits. -/
theorem c6_decode_gid :
    DecodeGID 0x80000005 = (5, FlipHorizontal) ∧
      DecodeGID (FlipDiagonalFlag ||| FlipHorizontalFlag) =
        (0, FlipVertical ||| FlipDiagonal) ∧
      DecodeGID (FlipDiagonalFlag ||| FlipVerticalFlag) =
        (0, FlipHorizontal ||| FlipDiagonal) ∧
      (∀ gid : Nat, (DecodeGID gid).1 = gid % 2 ^ 29) ∧
      (∀ gid : Nat, gid &&& FlipDiagonalFlag ≠ 0 →
        ((DecodeGID gid).2 &&& FlipHorizontal ≠ 0 ↔
            Xor' (gid &&& FlipHorizontalFlag ≠ 0)
              (gid &&& FlipHorizontalFlag ≠ 0 ∨ gid &&& FlipVerticalFlag ≠ 0)) ∧
          ((DecodeGID gid).2 &&& FlipVertical ≠ 0 ↔
            Xor' (gid &&& FlipVerticalFlag ≠ 0)
              (gid &&& FlipHorizontalFlag ≠ 0 ∨ gid &&& FlipVerticalFlag ≠ 0)) ∧
          (DecodeGID gid).2 &&& FlipDiagonal ≠ 0) := by
  refine ⟨by decide, by decide, by decide, ?_, ?_⟩
  · intro gid
    show gid &&& GIDMask = gid % 2 ^ 29
    have h : GIDMask = 2 ^ 29 - 1 := by norm_num [GIDMask]
    rw [h, Nat.and_pow_two_sub_one_eq_mod]
  · intro gid hd
    cases hb1 : gid &&& FlipHorizontalFlag == 0 <;>
      cases hb2 : gid &&& FlipVerticalFlag == 0 <;>
        simp only [beq_iff_eq, beq_eq_false_iff_ne] at hb1 hb2 <;>
        simp [DecodeGID, hb1, hb2, hd, Xor'] <;> decide

theorem c6_decode_gid_witness :
    ((0xA0000005 : Nat) &&& FlipDiagonalFlag ≠ 0) ∧
      (DecodeGID 0xA0000005).2 &&& FlipDiagonal ≠ 0 ∧
      (DecodeGID 0xA0000005).1 = 0xA0000005 % 2 ^ 29 :=
  ⟨by decide, (c6_decode_gid.2.2.2.2 0xA0000005 (by decide)).2.2,
    c6_decode_gid.2.2.2.1 0xA0000005⟩

/-- C7 counterexample: `decodeCSV` accepts the token "-1" (Go's signed
`strconv.Atoi` plus a `uint32` truncation yields 4294967295), while parsing
it "as an unsigned integer" per the claim rejects it as a hard failure. -/
theorem c7_counterexample :
    decodeCSV "-1" = Except.ok [4294967295] ∧
      decodeCSVUnsigned "-1" = Except.error (Err.invalidCSV "-1") := by
  constructor <;> decide

/-- C7 amended: DecodeContent in CSV mode splits the payload on ',', trims
whitespace, skips empty tokens, parses every remaining token as a *signed*
base-10 integer in the 64-bit int range and truncates it to uint32 modulo
2^32; a token that is not such an integer is a hard failure. -/
theorem c7_amended (content : String) :
    decodeCSV content = decodeCSVAmended content := by
  unfold decodeCSV decodeCSVAmended
  rw [decodeCSV_go_spec]
  cases h : (((goSplitOn ',' content.data).map goTrim).filter
      (fun s => s ≠ [])).mapM
      (fun s =>
        match goAtoi s with
        | none => Except.error (Err.invalidCSV (String.mk s))
        | some v => Except.ok (toUInt32 v)) with
  | error e => simp [Except.map]
  | ok vs => simp [Except.map]

theorem c7_amended_witness :
    decodeCSV " 5 ,,7 , -1" = Except.ok [5, 7, 4294967295] ∧
      decodeCSV " 5 ,,7 , -1" = decodeCSVAmended " 5 ,,7 , -1" ∧
      decodeCSV "1,x" = Except.error (Err.invalidCSV "x") :=
  ⟨by decide, c7_amended " 5 ,,7 , -1", by decide⟩

/-- C10: whenever GetTiles rejects a query (no document, no decoded layers,
or an inverted frame), it returns an error together with the empty iterator
and leaves the Tilemap state exactly as it was. -/
theorem c10_error_paths (tm : Tilemap) (minX minY maxX maxY : ℚ)
    (h : tm.Tmx = none ∨ tm.decodedLayers.length = 0 ∨ minX > maxX ∨ minY > maxY) :
    (GetTiles tm minX minY maxX maxY).err.isSome = true ∧
      (GetTiles tm minX minY maxX maxY).tm = tm ∧
      (GetTiles tm minX minY maxX maxY).it = emptyIterator := by
  unfold GetTiles
  cases htmx : tm.Tmx with
  | none => exact ⟨rfl, rfl, rfl⟩
  | some tmx =>
    dsimp only
    by_cases hlen : tm.decodedLayers.length = 0
    · rw [if_pos hlen]
      exact ⟨rfl, rfl, rfl⟩
    · rw [if_neg hlen]
      have hb : minX > maxX ∨ minY > maxY := by
        rcases h with h | h | h | h
        · rw [htmx] at h
          exact absurd h (by simp)
        · exact absurd h hlen
        · exact Or.inl h
        · exact Or.inr h
      rw [if_pos hb]
      exact ⟨rfl, rfl, rfl⟩

theorem c10_error_paths_witness :
    (NewTilemap.Tmx = none ∨ NewTilemap.decodedLayers.length = 0 ∨
        (0 : ℚ) > 1 ∨ (0 : ℚ) > 1) ∧
      ((GetTiles NewTilemap 0 0 1 1).err.isSome = true ∧
        (GetTiles NewTilemap 0 0 1 1).tm = NewTilemap ∧
        (GetTiles NewTilemap 0 0 1 1).it = emptyIterator) :=
  ⟨Or.inl rfl, c10_error_paths NewTilemap 0 0 1 1 (Or.inl rfl)⟩

/-- C4: after a successful GetTiles, repeating the identical frame computes
the same region, takes the exact-hit path (no recomputation, no state
change, the three cache fields included) and returns a bit-identical
iterator. -/
theorem c4_idempotent (tm : Tilemap) (minX minY maxX maxY : ℚ)
    (h1 : (GetTiles tm minX minY maxX maxY).err = none) :
    GetTiles (GetTiles tm minX minY maxX maxY).tm minX minY maxX maxY =
      { it := (GetTiles tm minX minY maxX maxY).it
        err := none
        tm := (GetTiles tm minX minY maxX maxY).tm } := by
  obtain ⟨htmx0, hlay, hbounds⟩ := getTiles_err_none tm minX minY maxX maxY h1
  cases htmx : tm.Tmx with
  | none => exact absurd htmx htmx0
  | some tmx =>
    rcases getTiles_cases tm tmx minX minY maxX maxY htmx hlay hbounds with
      ⟨heq, hres⟩ | ⟨hne, hres⟩
    · -- first call was already an exact hit: state unchanged
      rw [hres]
      dsimp only
      rcases getTiles_cases tm tmx minX minY maxX maxY htmx hlay hbounds with
        ⟨-, hres2⟩ | ⟨hne2, -⟩
      · rw [hres2]
      · exact absurd heq hne2
    · -- first call rebuilt the cache; the second hits it exactly
      set region :=
        calculateQueryRegion minX minY maxX maxY tmx.TileWidth tmx.TileHeight
        with hregion
      obtain ⟨u1, u2, u3, -, -, -, -⟩ := updateCache_basic tm region
      rw [hres]
      dsimp only
      have htmx' : (updateCache tm region).Tmx = some tmx := by rw [u1, htmx]
      have hlay' : (updateCache tm region).decodedLayers.length ≠ 0 := by
        rw [u3]; exact hlay
      rcases getTiles_cases (updateCache tm region) tmx minX minY maxX maxY
          htmx' hlay' hbounds with ⟨-, hres2⟩ | ⟨hne2, -⟩
      · rw [hres2]
      · exact absurd (u2 (by rw [htmx]; simp)).symm hne2

theorem c4_idempotent_witness :
    (GetTiles (SetTmx exDec64 NewTilemap (some exTmx)).2 0 0 32 32).err = none ∧
      GetTiles
          (GetTiles (SetTmx exDec64 NewTilemap (some exTmx)).2 0 0 32 32).tm
          0 0 32 32 =
        { it := (GetTiles (SetTmx exDec64 NewTilemap (some exTmx)).2 0 0 32 32).it
          err := none
          tm := (GetTiles (SetTmx exDec64 NewTilemap (some exTmx)).2 0 0 32 32).tm } :=
  ⟨by decide,
    c4_idempotent (SetTmx exDec64 NewTilemap (some exTmx)).2 0 0 32 32 (by decide)⟩

/-- C1 counterexample: on a Tilemap that already holds a valid document,
a SetTmx whose layer decoding fails returns the decode error, yet the map
is NOT left unable to serve queries — the very next GetTiles succeeds
(serving the previously set document), contradicting the claim's "every
subsequent GetTiles call fails". -/
theorem c1_counterexample :
    (SetTmx exDec64 NewTilemap (some exTmx)).1 = none ∧
      (SetTmx exDec64 (SetTmx exDec64 NewTilemap (some exTmx)).2
          (some exTmxBad)).1 = some (Err.invalidCSV "x") ∧
      (GetTiles (SetTmx exDec64 (SetTmx exDec64 NewTilemap (some exTmx)).2
          (some exTmxBad)).2 0 0 32 32).err = none := by
  refine ⟨by decide, by decide, by decide⟩

/-- C1 amended: if decoding any layer's content fails during SetTmx, the
whole operation aborts — SetTmx returns the decode error and commits no
layer list (the document reference, bounds and decoded layers are exactly
as before; only the query cache is flushed).  A Tilemap that never had a
valid document set (Tmx still nil) keeps failing every GetTiles call; a
previously set document, if any, remains in effect. -/
theorem c1_decode_failure_aborts (dec64 : Base64Dec) (tm : Tilemap) (tmx : Tmx)
    (e : Err) (hne : tmx.Layers.length ≠ 0)
    (hdec : decodeTilemapLayers dec64 tmx = .error e) :
    (SetTmx dec64 tm (some tmx)).1 = some e ∧
      (SetTmx dec64 tm (some tmx)).2 = FlushCache tm ∧
      (FlushCache tm).Tmx = tm.Tmx ∧
      (FlushCache tm).decodedLayers = tm.decodedLayers ∧
      (FlushCache tm).minX = tm.minX ∧ (FlushCache tm).minY = tm.minY ∧
      (FlushCache tm).maxX = tm.maxX ∧ (FlushCache tm).maxY = tm.maxY ∧
      (tm.Tmx = none → ∀ a b c d : ℚ,
        (GetTiles (SetTmx dec64 tm (some tmx)).2 a b c d).err = some Err.noTmxData) := by
  have hset : SetTmx dec64 tm (some tmx) = (some e, FlushCache tm) := by
    unfold SetTmx
    dsimp only
    rw [if_neg hne, hdec]
  refine ⟨by rw [hset], by rw [hset], rfl, rfl, rfl, rfl, rfl, rfl, ?_⟩
  intro hnone a b c d
  rw [hset]
  unfold GetTiles FlushCache
  dsimp only
  rw [hnone]

theorem c1_decode_failure_aborts_witness :
    (exTmxBad.Layers.length ≠ 0 ∧
        decodeTilemapLayers exDec64 exTmxBad = .error (Err.invalidCSV "x")) ∧
      (SetTmx exDec64 NewTilemap (some exTmxBad)).1 = some (Err.invalidCSV "x") ∧
      (GetTiles (SetTmx exDec64 NewTilemap (some exTmxBad)).2 0 0 32 32).err =
        some Err.noTmxData :=
  ⟨⟨by decide, by decide⟩,
    (c1_decode_failure_aborts exDec64 NewTilemap exTmxBad (Err.invalidCSV "x")
        (by decide) (by decide)).1,
    (c1_decode_failure_aborts exDec64 NewTilemap exTmxBad (Err.invalidCSV "x")
        (by decide) (by decide)).2.2.2.2.2.2.2.2 rfl 0 0 32 32⟩

/-- C2 counterexample: directly after SetTmx, a query whose computed region
is the zero region (frame (0,0,0,0)) equals the freshly flushed cached
region, takes the exact-hit path against the empty cache and yields NO
slices at all, although the document has one layer — refuting
"one (possibly empty) slice per document layer" for every successful call. -/
theorem c2_counterexample :
    (SetTmx exDec64 NewTilemap (some exTmx)).1 = none ∧
      exTmx.Layers.length = 1 ∧
      (GetTiles (SetTmx exDec64 NewTilemap (some exTmx)).2 0 0 0 0).err = none ∧
      (GetTiles (SetTmx exDec64 NewTilemap (some exTmx)).2 0 0 0 0).it.yields = [] := by
  refine ⟨by decide, by decide, by decide, by decide⟩

/-- C2 amended: for every successful GetTiles call on an invariant-holding
state whose computed region does not exact-hit a still-flushed cache
(`cachedPositions = []`), the iterator yields exactly the per-layer slices
in document layer order: one slice per decoded layer (= one per document
layer when the counts agree, as SetTmx guarantees), an invisible layer
contributing an empty slice rather than being skipped; after those slices
the iterator is exhausted.  In the excluded degenerate case (zero-area
frame against a freshly flushed cache) the iterator yields no slices. -/
theorem c2_per_layer_slices (tm : Tilemap) (tmx : Tmx)
    (minX minY maxX maxY : ℚ) (hinv : TmInv tmx tm)
    (hlen : tm.decodedLayers.length = tmx.Layers.length)
    (hlay : tm.decodedLayers.length ≠ 0)
    (hbounds : ¬(minX > maxX ∨ minY > maxY))
    (hkey : RegionKeyOK tmx
      (calculateQueryRegion minX minY maxX maxY tmx.TileWidth tmx.TileHeight))
    (hnotdeg : tm.cachedPositions = [] →
      calculateQueryRegion minX minY maxX maxY tmx.TileWidth tmx.TileHeight ≠
        tm.cachedTileRegion) :
    (GetTiles tm minX minY maxX maxY).err = none ∧
      (GetTiles tm minX minY maxX maxY).it.yields.length = tmx.Layers.length ∧
      (∀ j, j < tmx.Layers.length →
        ((tmx.Layers.getD j default).IsVisible = false →
          (GetTiles tm minX minY maxX maxY).it.yields.getD j [] = [])) := by
  obtain ⟨htmx, hcoh, hcache⟩ := hinv
  set region :=
    calculateQueryRegion minX minY maxX maxY tmx.TileWidth tmx.TileHeight
    with hregion
  have hyields : (GetTiles tm minX minY maxX maxY).err = none ∧
      ∃ lays : List TilemapLayer, lays.length = tm.decodedLayers.length ∧
        SameShape tm.decodedLayers lays ∧
        (GetTiles tm minX minY maxX maxY).it.yields =
          pureLayersAux tmx (GetTiles tm minX minY maxX maxY).tm.cachedTileRegion lays 0 := by
    rcases getTiles_cases tm tmx minX minY maxX maxY htmx hlay hbounds with
      ⟨heq, hres⟩ | ⟨hne, hres⟩
    · -- exact hit: the cache must already hold a computed region
      rcases hcache with ⟨hd, hp⟩ | ⟨hd, hp⟩
      · exact absurd heq (hnotdeg hp)
      · rw [hres]
        dsimp only
        refine ⟨rfl, tm.decodedLayers, rfl, sameShape_refl _, ?_⟩
        exact buildIterator_yields tm tmx hd hp
    · rw [hres]
      dsimp only
      rw [← hregion]
      obtain ⟨u1, u2, u3, u4, u5, u6⟩ := updateCache_spec tm tmx region htmx hcoh hkey
      refine ⟨rfl, tm.decodedLayers, rfl, sameShape_refl _, ?_⟩
      have hb := buildIterator_yields (updateCache tm region) tmx
        (by rw [u3, u2, pureLayersAux_congr tmx region _ _ 0 u6])
        (by rw [u4, u2, pureLayersAux_congr tmx region _ _ 0 u6])
      rw [hb, u2]
      exact (pureLayersAux_congr tmx region _ _ 0 u6).symm
  obtain ⟨herr, lays, hlays, hshape, hy⟩ := hyields
  refine ⟨herr, ?_, ?_⟩
  · rw [hy, pureLayersAux_length, hlays, hlen]
  · intro j hj hinvis
    rw [hy, pureLayersAux_getD tmx _ lays 0 j (by omega)]
    unfold pureLayerTiles
    simp only [Nat.zero_add]
    rw [hinvis]
    simp

theorem c2_per_layer_slices_witness :
    ((GetTiles (SetTmx exDec64 NewTilemap (some exTmx2)).2 0 0 32 32).err = none ∧
        (GetTiles (SetTmx exDec64 NewTilemap (some exTmx2)).2
          0 0 32 32).it.yields.length = exTmx2.Layers.length ∧
        (∀ j, j < exTmx2.Layers.length →
          ((exTmx2.Layers.getD j default).IsVisible = false →
            (GetTiles (SetTmx exDec64 NewTilemap (some exTmx2)).2
              0 0 32 32).it.yields.getD j [] = []))) ∧
      (exTmx2.Layers.getD 1 default).IsVisible = false :=
  ⟨c2_per_layer_slices (SetTmx exDec64 NewTilemap (some exTmx2)).2 exTmx2 0 0 32 32
      (tmInv_setTmx exDec64 NewTilemap exTmx2 (by decide))
      (by decide) (by decide) (by decide)
      (fun x y _ _ _ _ => keyOK_of_finite ⟨by decide, by decide, by decide⟩ x y)
      (fun _ => by decide),
    by decide⟩

theorem cohFrom_of_all_empty (tmx : Tmx) (i : Nat) (lays : List TilemapLayer)
    (h : ∀ lay ∈ lays, lay.Tiles = []) : CohFrom tmx i lays := by
  intro j hj
  apply coh_of_empty
  apply h
  have : lays.getD j default = lays[j] := List.getD_eq_getElem lays default hj
  rw [this]
  exact List.getElem_mem hj

/-- C3: on a freshly documented Tilemap, querying frame F and then a
capacity-compatible frame F2 yields for F2 exactly the same tiles, in the
same order, as querying F2 on a freshly constructed Tilemap with the same
document.  The `RegionKeyOK` hypotheses record that both query regions fit
in the int32 coordinate range, which the Go source guarantees by type. -/
theorem c3_jitter_equivalence (dec64 : Base64Dec) (tmx : Tmx)
    (a1 b1 c1 d1 a2 b2 c2 d2 : ℚ)
    (hset : (SetTmx dec64 NewTilemap (some tmx)).1 = none)
    (hkey1 : RegionKeyOK tmx
      (calculateQueryRegion a1 b1 c1 d1 tmx.TileWidth tmx.TileHeight))
    (hkey2 : RegionKeyOK tmx
      (calculateQueryRegion a2 b2 c2 d2 tmx.TileWidth tmx.TileHeight))
    (h1 : (GetTiles (SetTmx dec64 NewTilemap (some tmx)).2 a1 b1 c1 d1).err = none)
    (hb2 : ¬(a2 > c2 ∨ b2 > d2))
    (hcompat : (calculateQueryRegion a2 b2 c2 d2 tmx.TileWidth
        tmx.TileHeight).CompatibleForCaching
      ((GetTiles (SetTmx dec64 NewTilemap (some tmx)).2 a1 b1 c1 d1).tm.cachedTileRegion)
      = true) :
    (GetTiles (GetTiles (SetTmx dec64 NewTilemap (some tmx)).2 a1 b1 c1 d1).tm
        a2 b2 c2 d2).err = none ∧
      (GetTiles (SetTmx dec64 NewTilemap (some tmx)).2 a2 b2 c2 d2).err = none ∧
      (GetTiles (GetTiles (SetTmx dec64 NewTilemap (some tmx)).2 a1 b1 c1 d1).tm
          a2 b2 c2 d2).it.tiles =
        (GetTiles (SetTmx dec64 NewTilemap (some tmx)).2 a2 b2 c2 d2).it.tiles := by
  clear hcompat
  obtain ⟨hne, layers, hdec, hst⟩ := setTmx_ok dec64 NewTilemap tmx hset
  obtain ⟨hlayers, hmemo⟩ := decodeTilemapLayers_shape dec64 tmx hdec
  rw [hst] at h1 ⊢
  set R : Tilemap :=
    { Tmx := some tmx
      cachedTileRegion := { MinX := 0, MinY := 0, MaxX := 0, MaxY := 0 }
      cachedTileData := []
      cachedPositions := []
      minX := (calculateTileBounds tmx).1
      minY := (calculateTileBounds tmx).2.1
      maxX := (calculateTileBounds tmx).2.2.1
      maxY := (calculateTileBounds tmx).2.2.2
      decodedLayers := layers } with hR
  have htmxR : R.Tmx = some tmx := rfl
  have hlayR : R.decodedLayers.length ≠ 0 := by
    show layers.length ≠ 0
    rw [hlayers]
    exact hne
  have hcohR : CohFrom tmx 0 R.decodedLayers :=
    cohFrom_of_all_empty tmx 0 layers hmemo
  obtain ⟨-, -, hb1⟩ := getTiles_err_none R a1 b1 c1 d1 h1
  obtain ⟨region1, hreg1⟩ :
      ∃ r, calculateQueryRegion a1 b1 c1 d1 tmx.TileWidth tmx.TileHeight = r :=
    ⟨_, rfl⟩
  obtain ⟨region2, hreg2⟩ :
      ∃ r, calculateQueryRegion a2 b2 c2 d2 tmx.TileWidth tmx.TileHeight = r :=
    ⟨_, rfl⟩
  rw [hreg1] at hkey1
  rw [hreg2] at hkey2
  have herr2R : ∀ tm' : Tilemap, tm'.Tmx = some tmx →
      tm'.decodedLayers.length ≠ 0 →
      (GetTiles tm' a2 b2 c2 d2).err = none := by
    intro tm' h1' h2'
    rcases getTiles_cases tm' tmx a2 b2 c2 d2 h1' h2' hb2 with ⟨-, h⟩ | ⟨-, h⟩ <;>
      rw [h]
  rcases getTiles_cases R tmx a1 b1 c1 d1 htmxR hlayR hb1 with
    ⟨heq1, hres1⟩ | ⟨hne1, hres1⟩
  · -- first query was an exact hit on the fresh cache: state unchanged
    rw [hres1]
    exact ⟨herr2R R htmxR hlayR, herr2R R htmxR hlayR, rfl⟩
  · -- first query rebuilt the cache
    rw [hreg1] at hres1 hne1
    rw [hres1]
    dsimp only
    obtain ⟨u1, u2, u3, u4, u5, u6⟩ := updateCache_spec R tmx region1 htmxR hcohR hkey1
    have htmx1 : (updateCache R region1).Tmx = some tmx := by rw [u1]
    have hlay1 : (updateCache R region1).decodedLayers.length ≠ 0 := by
      rw [← u6.1]
      exact hlayR
    refine ⟨herr2R _ htmx1 hlay1, herr2R R htmxR hlayR, ?_⟩
    rcases getTiles_cases (updateCache R region1) tmx a2 b2 c2 d2 htmx1 hlay1 hb2 with
      ⟨heq2, hres2⟩ | ⟨hne2, hres2⟩
    · -- second query on the primed map is an exact hit: region2 = region1
      rw [hreg2] at heq2
      rw [u2] at heq2
      rw [hres2]
      dsimp only
      rcases getTiles_cases R tmx a2 b2 c2 d2 htmxR hlayR hb2 with
        ⟨heq3, hres3⟩ | ⟨-, hres3⟩
      · -- impossible: it would make region1 the fresh cached region
        rw [hreg2, heq2] at heq3
        exact absurd heq3 hne1
      · rw [hreg2, heq2] at hres3
        rw [hres3]
    · -- second query recomputes on the primed map
      rw [hreg2] at hres2 hne2
      rw [u2] at hne2
      rw [hres2]
      dsimp only
      obtain ⟨v1, v2, v3, v4, v5, v6⟩ :=
        updateCache_spec (updateCache R region1) tmx region2 htmx1 u5 hkey2
      have hv3 : (updateCache (updateCache R region1) region2).cachedTileData =
          (pureLayersAux tmx region2 R.decodedLayers 0).flatten := by
        rw [v3, pureLayersAux_congr tmx region2 R.decodedLayers _ 0 u6]
      rcases getTiles_cases R tmx a2 b2 c2 d2 htmxR hlayR hb2 with
        ⟨heq3, hres3⟩ | ⟨-, hres3⟩
      · -- fresh map: degenerate exact hit on the zero region; both sides empty
        rw [hreg2] at heq3
        rw [hres3]
        simp only [buildIterator]
        rw [hv3]
        have hzero : region2.MinX = region2.MaxX := by
          have hRr : R.cachedTileRegion =
              { MinX := 0, MinY := 0, MaxX := 0, MaxY := 0 } := rfl
          rw [heq3, hRr]
        rw [pureLayersAux_zero_flatten tmx region2 (Or.inl hzero)]
      · rw [hreg2] at hres3
        rw [hres3]
        simp only [buildIterator]
        obtain ⟨-, -, w3, -, -, -⟩ := updateCache_spec R tmx region2 htmxR hcohR hkey2
        rw [hv3, w3]

theorem c3_jitter_equivalence_witness :
    ((SetTmx exDec64 NewTilemap (some exTmx)).1 = none ∧
        (GetTiles (SetTmx exDec64 NewTilemap (some exTmx)).2 0 0 32 32).err = none ∧
        (calculateQueryRegion 5 5 40 40 exTmx.TileWidth
            exTmx.TileHeight).CompatibleForCaching
          ((GetTiles (SetTmx exDec64 NewTilemap (some exTmx)).2
            0 0 32 32).tm.cachedTileRegion) = true) ∧
      (GetTiles (GetTiles (SetTmx exDec64 NewTilemap (some exTmx)).2 0 0 32 32).tm
          5 5 40 40).it.tiles =
        (GetTiles (SetTmx exDec64 NewTilemap (some exTmx)).2 5 5 40 40).it.tiles :=
  ⟨⟨by decide, by decide, by decide⟩,
    (c3_jitter_equivalence exDec64 exTmx 0 0 32 32 5 5 40 40 (by decide)
        (fun x y _ _ _ _ => keyOK_of_finite ⟨by decide, by decide, by decide⟩ x y)
        (fun x y _ _ _ _ => keyOK_of_finite ⟨by decide, by decide, by decide⟩ x y)
        (by decide) (by decide) (by decide)).2.2⟩

/-- On any error, `GetTiles` returns the empty iterator and leaves the
state untouched. -/
theorem getTiles_error_state (tm : Tilemap) (a b c d : ℚ)
    (h : (GetTiles tm a b c d).err ≠ none) :
    (GetTiles tm a b c d).tm = tm ∧ (GetTiles tm a b c d).it = emptyIterator := by
  unfold GetTiles at h ⊢
  cases htmx : tm.Tmx with
  | none => exact ⟨rfl, rfl⟩
  | some tmx =>
    rw [htmx] at h
    dsimp only at h ⊢
    by_cases hlen : tm.decodedLayers.length = 0
    · rw [if_pos hlen]
      exact ⟨rfl, rfl⟩
    · rw [if_neg hlen] at h ⊢
      by_cases hb : a > c ∨ b > d
      · rw [if_pos hb]
        exact ⟨rfl, rfl⟩
      · rw [if_neg hb] at h
        exfalso
        apply h
        split
        · rfl
        · split <;> rfl

/-- A successful `getTile` presupposes a nonzero decoded tile id that
resolves to a tileset. -/
theorem getTile_ok (tmx : Tmx) (x y : Int) (c : Nat) {td : TileData}
    (h : getTile tmx x y c = some td) :
    (DecodeGID c).1 ≠ 0 ∧ (TilesetByGID tmx (DecodeGID c).1).2.2 ≠ -1 := by
  unfold getTile at h
  rcases hdg : DecodeGID c with ⟨tid, fl⟩
  rw [hdg] at h
  dsimp only at h
  by_cases h0 : tid = 0
  · rw [if_pos h0] at h
    exact absurd h (by simp)
  · rw [if_neg h0] at h
    by_cases h1 : (TilesetByGID tmx tid).2.2 = -1
    · rw [if_pos h1] at h
      exact absurd h (by simp)
    · exact ⟨h0, h1⟩

/-- On a finite map, a memo-free hit pins down its origin cell: in-bounds
coordinates, a nonzero packed value, and a successful resolution. -/
theorem pureTileAt_finite_origin (tmx : Tmx) (lay : TilemapLayer) (li : Nat)
    (x y : Int) (td : TileData) (hinf : tmx.IsInfinite = false)
    (h : pureTileAt tmx lay li x y = some td) :
    0 ≤ x ∧ x < tmx.Width ∧ 0 ≤ y ∧ y < tmx.Height ∧
      lay.Content.getD (y * tmx.Width + x).toNat 0 ≠ 0 ∧
      (DecodeGID (lay.Content.getD (y * tmx.Width + x).toNat 0)).1 ≠ 0 ∧
      (TilesetByGID tmx
        (DecodeGID (lay.Content.getD (y * tmx.Width + x).toNat 0)).1).2.2 ≠ -1 ∧
      getTile tmx x y (lay.Content.getD (y * tmx.Width + x).toNat 0) = some td := by
  unfold pureTileAt getTileAt at h
  rw [hinf] at h
  simp only [Bool.false_eq_true, if_false] at h
  by_cases hb : x < 0 ∨ x ≥ tmx.Width ∨ y < 0 ∨ y ≥ tmx.Height
  · rw [if_pos hb] at h
    exact absurd h (by simp)
  · rw [if_neg hb] at h
    push_neg at hb
    obtain ⟨b1, b2, b3, b4⟩ := hb
    simp only [lookup_nil_eq_none] at h
    by_cases hi : (y * tmx.Width + x : Int) < 0 ∨
        (y * tmx.Width + x : Int) ≥ (lay.Content.length : Int)
    · rw [if_pos hi] at h
      exact absurd h (by simp)
    · rw [if_neg hi] at h
      by_cases hz : lay.Content.getD (y * tmx.Width + x).toNat 0 = 0
      · rw [if_pos hz] at h
        exact absurd h (by simp)
      · rw [if_neg hz] at h
        cases hg : getTile tmx x y (lay.Content.getD (y * tmx.Width + x).toNat 0) with
        | none =>
          rw [hg] at h
          exact absurd h (by simp)
        | some t =>
          rw [hg] at h
          simp only [Option.some.injEq] at h
          subst h
          obtain ⟨g1, g2⟩ := getTile_ok tmx x y _ hg
          exact ⟨b1, b2, b3, b4, hz, g1, g2, rfl⟩

/-- Every tile of a memo-free recomputation has a memo-free origin in some
layer. -/
theorem mem_pureLayersAux (tmx : Tmx) (region : TileRegion) :
    ∀ (lays : List TilemapLayer) (i : Nat) (td : TileData),
      td ∈ (pureLayersAux tmx region lays i).flatten →
      ∃ j x y, j < lays.length ∧
        pureTileAt tmx (lays.getD j default) (i + j) x y = some td := by
  intro lays
  induction lays with
  | nil =>
    intro i td h
    exact absurd h (by simp [pureLayersAux])
  | cons lay rest ih =>
    intro i td h
    unfold pureLayersAux at h
    rw [List.flatten_cons] at h
    rcases List.mem_append.mp h with h | h
    · unfold pureLayerTiles at h
      split at h
      · unfold pureRegionTiles at h
        obtain ⟨row, hrow, hmem⟩ := List.mem_flatten.mp h
        obtain ⟨y, -, hy⟩ := List.mem_map.mp hrow
        rw [← hy] at hmem
        obtain ⟨x, -, hx⟩ := List.mem_filterMap.mp hmem
        exact ⟨0, x, y, by simp, by simpa using hx⟩
      · exact absurd h (by simp)
    · obtain ⟨j, x, y, hj, hp⟩ := ih (i + 1) td h
      refine ⟨j + 1, x, y, by simpa using hj, ?_⟩
      simpa [Nat.add_comm, Nat.add_assoc, Nat.add_left_comm] using hp

/-- A sequence of GetTiles calls, keeping only the evolving state. -/
def runQueries (tm : Tilemap) : List (ℚ × ℚ × ℚ × ℚ) → Tilemap
  | [] => tm
  | f :: fs => runQueries (GetTiles tm f.1 f.2.1 f.2.2.1 f.2.2.2).tm fs

theorem tmInv_runQueries (tmx : Tmx) (hfin : TmFiniteOK tmx) :
    ∀ (fs : List (ℚ × ℚ × ℚ × ℚ)) (tm : Tilemap), TmInv tmx tm →
      TmInv tmx (runQueries tm fs) := by
  intro fs
  induction fs with
  | nil => intro tm h; exact h
  | cons f fs ih =>
    intro tm h
    exact ih _ (tmInv_getTiles tmx tm f.1 f.2.1 f.2.2.1 f.2.2.2 h
      (fun x y _ _ _ _ => keyOK_of_finite hfin x y))

/-- C5: on a valid finite map (int32 dimensions), no TileData served by any
query — after any sequence of prior queries — originates from a grid cell
whose packed value is 0, and no cell whose decoded tile id fails to resolve
to a tileset contributes: every returned tile comes from an in-bounds cell
with a nonzero packed value, a nonzero decoded tile id and a successful
tileset resolution. -/
theorem c5_no_zero_or_unresolvable (dec64 : Base64Dec) (tmx : Tmx)
    (fs : List (ℚ × ℚ × ℚ × ℚ)) (a b c d : ℚ) (td : TileData)
    (hfin : TmFiniteOK tmx)
    (hset : (SetTmx dec64 NewTilemap (some tmx)).1 = none)
    (hmem : td ∈ (GetTiles (runQueries (SetTmx dec64 NewTilemap (some tmx)).2 fs)
      a b c d).it.tiles) :
    ∃ j x y, j < (runQueries (SetTmx dec64 NewTilemap (some tmx)).2 fs).decodedLayers.length ∧
      0 ≤ x ∧ x < tmx.Width ∧ 0 ≤ y ∧ y < tmx.Height ∧
      (((runQueries (SetTmx dec64 NewTilemap (some tmx)).2 fs).decodedLayers.getD j
          default).Content.getD (y * tmx.Width + x).toNat 0 ≠ 0) ∧
      (DecodeGID (((runQueries (SetTmx dec64 NewTilemap (some tmx)).2 fs).decodedLayers.getD j
          default).Content.getD (y * tmx.Width + x).toNat 0)).1 ≠ 0 ∧
      (TilesetByGID tmx
        (DecodeGID (((runQueries (SetTmx dec64 NewTilemap (some tmx)).2 fs).decodedLayers.getD j
          default).Content.getD (y * tmx.Width + x).toNat 0)).1).2.2 ≠ -1 ∧
      getTile tmx x y
        (((runQueries (SetTmx dec64 NewTilemap (some tmx)).2 fs).decodedLayers.getD j
          default).Content.getD (y * tmx.Width + x).toNat 0) = some td := by
  obtain ⟨htmxN, hcohN, hcacheN⟩ :=
    tmInv_runQueries tmx hfin fs _ (tmInv_setTmx dec64 NewTilemap tmx hset)
  obtain ⟨region, hflat⟩ :
      ∃ region, td ∈ (pureLayersAux tmx region
        (runQueries (SetTmx dec64 NewTilemap (some tmx)).2 fs).decodedLayers 0).flatten := by
    by_cases herr : (GetTiles (runQueries (SetTmx dec64 NewTilemap (some tmx)).2 fs)
        a b c d).err = none
    · obtain ⟨-, hlayN, hboundsN⟩ := getTiles_err_none _ a b c d herr
      rcases getTiles_cases _ tmx a b c d htmxN hlayN hboundsN with
        ⟨heq, hres⟩ | ⟨hne, hres⟩
      · rw [hres] at hmem
        simp only [buildIterator] at hmem
        rcases hcacheN with ⟨hd, -⟩ | ⟨hd, -⟩
        · rw [hd] at hmem
          exact absurd hmem (by simp)
        · rw [hd] at hmem
          exact ⟨_, hmem⟩
      · rw [hres] at hmem
        simp only [buildIterator] at hmem
        obtain ⟨-, -, u3, -, -, -⟩ :=
          updateCache_spec _ tmx _ htmxN hcohN
            (fun x y _ _ _ _ => keyOK_of_finite hfin x y)
        rw [u3] at hmem
        exact ⟨_, hmem⟩
    · obtain ⟨-, hit⟩ := getTiles_error_state _ a b c d herr
      rw [hit] at hmem
      exact absurd hmem (by simp [emptyIterator])
  obtain ⟨j, x, y, hj, hp⟩ := mem_pureLayersAux tmx region _ 0 td hflat
  simp only [Nat.zero_add] at hp
  obtain ⟨b1, b2, b3, b4, hnz, hid, hts, hg⟩ :=
    pureTileAt_finite_origin tmx _ j x y td hfin.1 hp
  exact ⟨j, x, y, hj, b1, b2, b3, b4, hnz, hid, hts, hg⟩

theorem c5_no_zero_or_unresolvable_witness :
    (TmFiniteOK exTmx ∧ (SetTmx exDec64 NewTilemap (some exTmx)).1 = none ∧
        { X := (16 : Int), Y := 16, TileID := 1, TsIdx := 0, FlipFlag := 0 } ∈
          (GetTiles (runQueries (SetTmx exDec64 NewTilemap (some exTmx)).2 [])
            0 0 32 32).it.tiles) ∧
      ∃ j x y, j < (runQueries (SetTmx exDec64 NewTilemap (some exTmx)).2
          []).decodedLayers.length ∧
        0 ≤ x ∧ x < exTmx.Width ∧ 0 ≤ y ∧ y < exTmx.Height ∧
        (((runQueries (SetTmx exDec64 NewTilemap (some exTmx)).2 []).decodedLayers.getD j
            default).Content.getD (y * exTmx.Width + x).toNat 0 ≠ 0) ∧
        (DecodeGID (((runQueries (SetTmx exDec64 NewTilemap (some exTmx)).2
            []).decodedLayers.getD j
            default).Content.getD (y * exTmx.Width + x).toNat 0)).1 ≠ 0 ∧
        (TilesetByGID exTmx
          (DecodeGID (((runQueries (SetTmx exDec64 NewTilemap (some exTmx)).2
            []).decodedLayers.getD j
            default).Content.getD (y * exTmx.Width + x).toNat 0)).1).2.2 ≠ -1 ∧
        getTile exTmx x y
          (((runQueries (SetTmx exDec64 NewTilemap (some exTmx)).2 []).decodedLayers.getD j
            default).Content.getD (y * exTmx.Width + x).toNat 0) =
          some { X := (16 : Int), Y := 16, TileID := 1, TsIdx := 0, FlipFlag := 0 } :=
  ⟨⟨⟨by decide, by decide, by decide⟩, by decide, by decide⟩,
    c5_no_zero_or_unresolvable exDec64 exTmx [] 0 0 32 32
      { X := (16 : Int), Y := 16, TileID := 1, TsIdx := 0, FlipFlag := 0 }
      ⟨by decide, by decide, by decide⟩ (by decide) (by decide)⟩

namespace Alias

/-! Buffer-identity model for the iterator-isolation claim.

The value level of the engine is covered by the main model above; what it
cannot express is Go slice aliasing.  This model tracks, for the two cache
buffers of a `Tilemap` (`cachedTileData`, `cachedPositions`), *which heap
array* each slice header points at and what that array holds:

* `FlushCache` (tilemap.go 161-165) truncates both buffers in place —
  same arrays, emptied;
* `updateCache` (220-243) truncates and refills the same arrays in place
  (the worst case for aliasing; a mid-append reallocation by Go would only
  move the map onto a fresh array, which is safer still);
* the full-rebuild path of `GetTiles` (211-214) points the map at a fresh
  array when the current capacity is short;
* `buildIterator` (245-253) allocates two fresh arrays and copies the
  current buffer contents into them — the iterator's private copy;
* `SetTmx` (143) touches these buffers only through `FlushCache`.

The tile values written by a rebuild are parameters of the operation: the
main model computes them, this model only tracks where they land. -/

structure Heap where
  tileBufs : Nat → List TileData
  tileCaps : Nat → Nat
  posBufs : Nat → List Nat
  fresh : Nat

structure TmBufs where
  dataId : Nat
  posId : Nat

structure ItBufs where
  tilesId : Nat
  positionsId : Nat

def writeTiles (h : Heap) (i : Nat) (v : List TileData) : Heap :=
  { h with
    tileBufs := Function.update h.tileBufs i v
    tileCaps := Function.update h.tileCaps i (max (h.tileCaps i) v.length) }

def writePos (h : Heap) (i : Nat) (v : List Nat) : Heap :=
  { h with posBufs := Function.update h.posBufs i v }

/-- `FlushCache`: truncate both buffers in place. -/
def flushCacheB (st : Heap × TmBufs) : Heap × TmBufs :=
  (writePos (writeTiles st.1 st.2.dataId []) st.2.posId [], st.2)

/-- `updateCache`: refill both buffers in place. -/
def updateCacheB (st : Heap × TmBufs) (vals : List TileData) (poss : List Nat) :
    Heap × TmBufs :=
  (writePos (writeTiles st.1 st.2.dataId vals) st.2.posId poss, st.2)

/-- The non-exact `GetTiles` path: reallocate the tile buffer when its
capacity is below the size estimate, then refill. -/
def getTilesRebuildB (st : Heap × TmBufs) (size : Nat) (vals : List TileData)
    (poss : List Nat) : Heap × TmBufs :=
  let st' :=
    if st.1.tileCaps st.2.dataId < size then
      ({ st.1 with
          tileBufs := Function.update st.1.tileBufs st.1.fresh []
          tileCaps := Function.update st.1.tileCaps st.1.fresh size
          fresh := st.1.fresh + 1 },
        { st.2 with dataId := st.1.fresh })
    else st
  updateCacheB st' vals poss

/-- `buildIterator`: two fresh arrays holding copies of the current cache
buffers. -/
def buildIteratorB (st : Heap × TmBufs) : (Heap × TmBufs) × ItBufs :=
  (({ st.1 with
      tileBufs := Function.update st.1.tileBufs st.1.fresh
        (st.1.tileBufs st.2.dataId)
      tileCaps := Function.update st.1.tileCaps st.1.fresh
        (st.1.tileBufs st.2.dataId).length
      posBufs := Function.update st.1.posBufs (st.1.fresh + 1)
        (st.1.posBufs st.2.posId)
      fresh := st.1.fresh + 2 },
    st.2),
  { tilesId := st.1.fresh, positionsId := st.1.fresh + 1 })

/-- The mutating calls the claim quantifies over. -/
inductive Op where
  | flush
  | setTmx
  | getTilesExact
  | getTilesRecompute (size : Nat) (vals : List TileData) (poss : List Nat)

def applyOp (st : Heap × TmBufs) : Op → Heap × TmBufs
  | .flush => flushCacheB st
  | .setTmx => flushCacheB st
  | .getTilesExact => (buildIteratorB st).1
  | .getTilesRecompute size vals poss =>
    (buildIteratorB (getTilesRebuildB st size vals poss)).1

def applyOps (st : Heap × TmBufs) : List Op → Heap × TmBufs
  | [] => st
  | op :: ops => applyOps (applyOp st op) ops

/-- Rebuilding the `TileIterator` a consumer holds: its two private arrays
as they currently stand in the heap. -/
def readIterator (h : Heap) (it : ItBufs) : TileIterator :=
  { tiles := h.tileBufs it.tilesId, positions := h.posBufs it.positionsId,
    index := 0 }

/-- The map's buffer handles are live (below the allocation counter). -/
def WFB (st : Heap × TmBufs) : Prop :=
  st.2.dataId < st.1.fresh ∧ st.2.posId < st.1.fresh

/-- The iterator's arrays are live and distinct from the map's. -/
def ItSafe (st : Heap × TmBufs) (it : ItBufs) : Prop :=
  WFB st ∧ it.tilesId < st.1.fresh ∧ it.positionsId < st.1.fresh ∧
    st.2.dataId ≠ it.tilesId ∧ st.2.posId ≠ it.positionsId

theorem buildIteratorB_spec (st : Heap × TmBufs) (hwf : WFB st) :
    ItSafe (buildIteratorB st).1 (buildIteratorB st).2 ∧
      readIterator (buildIteratorB st).1.1 (buildIteratorB st).2 =
        { tiles := st.1.tileBufs st.2.dataId
          positions := st.1.posBufs st.2.posId
          index := 0 } := by
  obtain ⟨h1, h2⟩ := hwf
  constructor
  · refine ⟨⟨?_, ?_⟩, ?_, ?_, ?_, ?_⟩
    · show st.2.dataId < st.1.fresh + 2
      omega
    · show st.2.posId < st.1.fresh + 2
      omega
    · show st.1.fresh < st.1.fresh + 2
      omega
    · show st.1.fresh + 1 < st.1.fresh + 2
      omega
    · show st.2.dataId ≠ st.1.fresh
      omega
    · show st.2.posId ≠ st.1.fresh + 1
      omega
  · unfold readIterator buildIteratorB
    dsimp only
    rw [Function.update_same, Function.update_same]

theorem applyOp_safe (st : Heap × TmBufs) (it : ItBufs) (op : Op)
    (h : ItSafe st it) :
    ItSafe (applyOp st op) it ∧
      (applyOp st op).1.tileBufs it.tilesId = st.1.tileBufs it.tilesId ∧
      (applyOp st op).1.posBufs it.positionsId = st.1.posBufs it.positionsId := by
  obtain ⟨⟨w1, w2⟩, s1, s2, s3, s4⟩ := h
  cases op with
  | flush =>
    refine ⟨⟨⟨w1, w2⟩, s1, s2, s3, s4⟩, ?_, ?_⟩
    · show Function.update st.1.tileBufs st.2.dataId [] it.tilesId =
        st.1.tileBufs it.tilesId
      exact Function.update_noteq (Ne.symm s3) _ _
    · show Function.update st.1.posBufs st.2.posId [] it.positionsId =
        st.1.posBufs it.positionsId
      exact Function.update_noteq (Ne.symm s4) _ _
  | setTmx =>
    refine ⟨⟨⟨w1, w2⟩, s1, s2, s3, s4⟩, ?_, ?_⟩
    · show Function.update st.1.tileBufs st.2.dataId [] it.tilesId =
        st.1.tileBufs it.tilesId
      exact Function.update_noteq (Ne.symm s3) _ _
    · show Function.update st.1.posBufs st.2.posId [] it.positionsId =
        st.1.posBufs it.positionsId
      exact Function.update_noteq (Ne.symm s4) _ _
  | getTilesExact =>
    refine ⟨⟨⟨?_, ?_⟩, ?_, ?_, s3, s4⟩, ?_, ?_⟩
    · show st.2.dataId < st.1.fresh + 2
      omega
    · show st.2.posId < st.1.fresh + 2
      omega
    · show it.tilesId < st.1.fresh + 2
      omega
    · show it.positionsId < st.1.fresh + 2
      omega
    · show Function.update st.1.tileBufs st.1.fresh
        (st.1.tileBufs st.2.dataId) it.tilesId = st.1.tileBufs it.tilesId
      exact Function.update_noteq (by omega) _ _
    · show Function.update st.1.posBufs (st.1.fresh + 1)
        (st.1.posBufs st.2.posId) it.positionsId = st.1.posBufs it.positionsId
      exact Function.update_noteq (by omega) _ _
  | getTilesRecompute size vals poss =>
    by_cases hcap : st.1.tileCaps st.2.dataId < size
    · have hred : applyOp st (.getTilesRecompute size vals poss) =
          (buildIteratorB (updateCacheB
            ({ st.1 with
                tileBufs := Function.update st.1.tileBufs st.1.fresh []
                tileCaps := Function.update st.1.tileCaps st.1.fresh size
                fresh := st.1.fresh + 1 },
              { st.2 with dataId := st.1.fresh }) vals poss)).1 := by
        unfold applyOp getTilesRebuildB
        dsimp only
        rw [if_pos hcap]
      rw [hred]
      refine ⟨⟨⟨?_, ?_⟩, ?_, ?_, ?_, ?_⟩, ?_, ?_⟩
      · show st.1.fresh < st.1.fresh + 1 + 2
        omega
      · show st.2.posId < st.1.fresh + 1 + 2
        omega
      · show it.tilesId < st.1.fresh + 1 + 2
        omega
      · show it.positionsId < st.1.fresh + 1 + 2
        omega
      · show st.1.fresh ≠ it.tilesId
        omega
      · exact s4
      · show Function.update
            (Function.update (Function.update st.1.tileBufs st.1.fresh [])
              st.1.fresh vals)
            (st.1.fresh + 1) _ it.tilesId = st.1.tileBufs it.tilesId
        rw [Function.update_noteq (by omega : it.tilesId ≠ st.1.fresh + 1),
          Function.update_noteq (by omega : it.tilesId ≠ st.1.fresh),
          Function.update_noteq (by omega : it.tilesId ≠ st.1.fresh)]
      · show Function.update (Function.update st.1.posBufs st.2.posId poss)
            (st.1.fresh + 1 + 1) _ it.positionsId = st.1.posBufs it.positionsId
        rw [Function.update_noteq (by omega : it.positionsId ≠ st.1.fresh + 1 + 1),
          Function.update_noteq (Ne.symm s4) _ _]
    · have hred : applyOp st (.getTilesRecompute size vals poss) =
          (buildIteratorB (updateCacheB st vals poss)).1 := by
        unfold applyOp getTilesRebuildB
        dsimp only
        rw [if_neg hcap]
      rw [hred]
      refine ⟨⟨⟨?_, ?_⟩, ?_, ?_, s3, s4⟩, ?_, ?_⟩
      · show st.2.dataId < st.1.fresh + 2
        omega
      · show st.2.posId < st.1.fresh + 2
        omega
      · show it.tilesId < st.1.fresh + 2
        omega
      · show it.positionsId < st.1.fresh + 2
        omega
      · show Function.update (Function.update st.1.tileBufs st.2.dataId vals)
            st.1.fresh _ it.tilesId = st.1.tileBufs it.tilesId
        rw [Function.update_noteq (by omega : it.tilesId ≠ st.1.fresh),
          Function.update_noteq (Ne.symm s3) _ _]
      · show Function.update (Function.update st.1.posBufs st.2.posId poss)
            (st.1.fresh + 1) _ it.positionsId = st.1.posBufs it.positionsId
        rw [Function.update_noteq (by omega : it.positionsId ≠ st.1.fresh + 1),
          Function.update_noteq (Ne.symm s4) _ _]

theorem applyOps_safe (ops : List Op) :
    ∀ (st : Heap × TmBufs) (it : ItBufs), ItSafe st it →
      ItSafe (applyOps st ops) it ∧
        (applyOps st ops).1.tileBufs it.tilesId = st.1.tileBufs it.tilesId ∧
        (applyOps st ops).1.posBufs it.positionsId = st.1.posBufs it.positionsId := by
  induction ops with
  | nil => intro st it h; exact ⟨h, rfl, rfl⟩
  | cons op ops ih =>
    intro st it h
    obtain ⟨h1, e1, e2⟩ := applyOp_safe st it op h
    obtain ⟨h2, e3, e4⟩ := ih (applyOp st op) it h1
    refine ⟨h2, ?_, ?_⟩
    · show (applyOps (applyOp st op) ops).1.tileBufs it.tilesId = _
      rw [e3, e1]
    · show (applyOps (applyOp st op) ops).1.posBufs it.positionsId = _
      rw [e4, e2]

/-- C9: an iterator returned by GetTiles owns a private copy of the cache
buffers: after any sequence of subsequent GetTiles (exact-hit or rebuild,
reallocation included), SetTmx or FlushCache calls on the same Tilemap, the
iterator still reads exactly the tiles and layer offsets that were cached
when it was built, its yielded slices (also after a Reset) included. -/
theorem c9_iterator_private_copy (st : Heap × TmBufs) (ops : List Op)
    (hwf : WFB st) :
    readIterator (applyOps (buildIteratorB st).1 ops).1 (buildIteratorB st).2 =
        { tiles := st.1.tileBufs st.2.dataId
          positions := st.1.posBufs st.2.posId
          index := 0 } ∧
      (readIterator (applyOps (buildIteratorB st).1 ops).1
          (buildIteratorB st).2).yields =
        TileIterator.yields
          { tiles := st.1.tileBufs st.2.dataId
            positions := st.1.posBufs st.2.posId
            index := 0 } ∧
      (readIterator (applyOps (buildIteratorB st).1 ops).1
          (buildIteratorB st).2).reset =
        readIterator (applyOps (buildIteratorB st).1 ops).1
          (buildIteratorB st).2 := by
  obtain ⟨hsafe, hread⟩ := buildIteratorB_spec st hwf
  obtain ⟨-, e1, e2⟩ := applyOps_safe ops (buildIteratorB st).1 (buildIteratorB st).2 hsafe
  have hmain : readIterator (applyOps (buildIteratorB st).1 ops).1
      (buildIteratorB st).2 =
      { tiles := st.1.tileBufs st.2.dataId
        positions := st.1.posBufs st.2.posId
        index := 0 } := by
    unfold readIterator at hread ⊢
    rw [e1, e2]
    exact hread
  refine ⟨hmain, by rw [hmain], ?_⟩
  rw [hmain]
  rfl

theorem c9_iterator_private_copy_witness :
    WFB (⟨fun _ => [], fun _ => 0, fun _ => [], 2⟩, ⟨0, 1⟩) ∧
      (readIterator
          (applyOps
            (buildIteratorB (⟨fun _ => [], fun _ => 0, fun _ => [], 2⟩, ⟨0, 1⟩)).1
            [Op.getTilesRecompute 4
              [{ X := 0, Y := 0, TileID := 7, TsIdx := 0, FlipFlag := 0 }] [0, 1],
              Op.flush, Op.setTmx, Op.getTilesExact]).1
          (buildIteratorB (⟨fun _ => [], fun _ => 0, fun _ => [], 2⟩, ⟨0, 1⟩)).2 =
        { tiles := (fun _ => ([] : List TileData)) 0
          positions := (fun _ => ([] : List Nat)) 1
          index := 0 }) :=
  ⟨⟨by decide, by decide⟩,
    (c9_iterator_private_copy (⟨fun _ => [], fun _ => 0, fun _ => [], 2⟩, ⟨0, 1⟩)
      [Op.getTilesRecompute 4
        [{ X := 0, Y := 0, TileID := 7, TsIdx := 0, FlipFlag := 0 }] [0, 1],
        Op.flush, Op.setTmx, Op.getTilesExact]
      ⟨by decide, by decide⟩).1⟩

end Alias

end Tiled
